import Mathlib

/-!
Verification of the omni-crudder filter-translation engine.

This file gives a shallow embedding, in Lean 4, of the two MongoDB-style
filter translators of the repository:

* the SQL form, `convertMongoFilterToSQL` and its helpers, from
  `utils/mongoToSQL.utils.js` (the module required by
  `utils/mongoToSQL.test.js`), which produces a parameterized WHERE
  clause plus an ordered parameter list, and

* the tree form, `parseSQLFilter.FilterParse` and its helpers, from
  `utils/filter.utils.js`, which produces a nested mapping keyed by
  Sequelize-style operator tokens.

JavaScript strings are modelled as `List Char`; JavaScript values as the
inductive `Value` below.  The translators never compute with numbers or
dates, so those are carried as opaque `Int` payloads.  The mutable
`parameters` array of the SQL form is modelled by explicit state passing:
every function takes the current parameter list and returns the updated
one (`push` becomes appending).  Thrown `Error`s are modelled with
`Except Err`.

The mutually recursive translator functions take an explicit `fuel`
argument bounding the recursion depth, mirroring the JavaScript engine's
bounded call stack; `none` means the depth bound was exhausted (the
JavaScript analogue is a `RangeError` from stack overflow).  Every
theorem quantifies over the fuel, and the witnesses exhibit concrete runs
completing with fuel to spare.  Fuel-indexed structural recursion also
keeps every definition computable by the kernel.

A second, heap-based embedding of the same two translators appears further
below; it makes object identity and mutation explicit so that the
frame property "a translation call never writes to the input document"
becomes a statable theorem.
-/

set_option maxHeartbeats 1600000

/-- JavaScript strings, modelled as lists of characters. -/
abbrev Str := List Char

/-- Shorthand turning a Lean string literal into the `List Char` model. -/
def str (s : String) : Str := s.toList

/-- The JavaScript values the translators receive and produce.  Numbers and
dates carry opaque `Int` payloads (the translators only move them around);
`vRegExp` carries the `source` pattern text of a `RegExp` object.  Object
fields are kept in insertion order, matching `Object.keys` / `for...in`
enumeration order for the string-keyed documents the translators handle. -/
inductive Value where
  | vNull
  | vUndefined
  | vBool (b : Bool)
  | vNum (n : Int)
  | vStr (s : Str)
  | vDate (t : Int)
  | vRegExp (source : Str)
  | vArr (elems : List Value)
  | vObj (fields : List (Str × Value))

/-- The errors the two modules throw.  Each constructor corresponds to one
family of `throw new Error(...)` sites:
`unsupportedMongo op` is "Unsupported MongoDB operator: op" (SQL form),
`unsupportedSeq op` is "Unsupported operator: op" (tree form),
`requiresArrayValue op` is "op operator requires an array value"
(`$in`/`$nin`, SQL form), `requiresArray op` is "op operator requires an
array" (`$and`/`$or`/`$nor`, both forms), and `typeError` models the
TypeError the JavaScript runtime raises when the regex-to-LIKE conversion
receives a value it cannot treat as a pattern string. -/
inductive Err where
  | unsupportedMongo (op : Str)
  | unsupportedSeq (op : Str)
  | requiresArrayValue (op : Str)
  | requiresArray (op : Str)
  | typeError
  deriving DecidableEq

/-- `Array.prototype.join(sep)` on a list of strings. -/
def joinSep (sep : Str) : List Str → Str
  | [] => []
  | [c] => c
  | c :: rest => c ++ sep ++ joinSep sep rest

/-- JavaScript truthiness for the modelled values (`NaN` does not occur:
numbers are opaque payloads). -/
def jsTruthy : Value → Bool
  | .vNull => false
  | .vUndefined => false
  | .vBool b => b
  | .vNum n => n ≠ 0
  | .vStr s => !s.isEmpty
  | .vDate _ => true
  | .vRegExp _ => true
  | .vArr _ => true
  | .vObj _ => true

/-- The decimal digit characters used when array indices are coerced to
property keys. -/
def digitChar : Nat → Char
  | 0 => '0' | 1 => '1' | 2 => '2' | 3 => '3' | 4 => '4'
  | 5 => '5' | 6 => '6' | 7 => '7' | 8 => '8' | _ => '9'

/-- Decimal rendering of an array index, as JavaScript produces for
`Object.keys` of an array. -/
def natToStr (n : Nat) : Str :=
  if _h : n < 10 then [digitChar n]
  else natToStr (n / 10) ++ [digitChar (n % 10)]

/-- `String(v)`: JavaScript string coercion, for the value shapes that can
reach it here.  The `Date` case is an opaque stand-in (the real rendering
is locale dependent); no claim exercises it. -/
def jsToString : Value → Str
  | .vNull => str "null"
  | .vUndefined => str "undefined"
  | .vBool b => if b then str "true" else str "false"
  | .vNum n => (toString n).toList
  | .vStr s => s
  | .vDate _ => str "[object Date]"
  | .vRegExp source => '/' :: source ++ ['/']
  | .vArr elems => joinSep (str ",") (elems.attach.map fun e => jsToString e.1)
  | .vObj _ => str "[object Object]"
termination_by v => sizeOf v
decreasing_by
  have := List.sizeOf_lt_of_mem e.2
  simp only [Value.vArr.sizeOf_spec]
  omega

/-- Object field lookup (`obj[key]`), returning `undefined`-like `none`
when absent.  JavaScript objects have unique keys, so first match suffices. -/
def getField (fields : List (Str × Value)) (key : Str) : Option Value :=
  match fields with
  | [] => none
  | (k, v) :: rest => if k = key then some v else getField rest key

/-! ## SQL form: `utils/mongoToSQL.utils.js` -/

/-- `isSlashPattern(value)`: true when `value` is a string of length at
least 2 whose first and last characters are `/`. -/
def isSlashPattern : Value → Bool
  | .vStr s => decide (2 ≤ s.length) && decide (s.head? = some '/') && decide (s.getLast? = some '/')
  | _ => false

/-- `convertSlashPatternToLike(pattern)`: strips the surrounding slashes,
records and strips a leading `^` and trailing `$`, then prepends `%`
unless a `^` was present and appends `%` unless a `$` was present. -/
def convertSlashPatternToLike (pattern : Str) : Str :=
  let innerPattern := (pattern.drop 1).dropLast
  let startsWithCaret := innerPattern.head? = some '^'
  let endsWithDollar := innerPattern.getLast? = some '$'
  let cleanPattern := if startsWithCaret then innerPattern.drop 1 else innerPattern
  let cleanPattern := if endsWithDollar then cleanPattern.dropLast else cleanPattern
  let likePattern := if startsWithCaret then cleanPattern else '%' :: cleanPattern
  if endsWithDollar then likePattern else likePattern ++ ['%']

/-- One global-replace step of `convertRegexToLike`: every `%` becomes
`\%` and every `_` becomes `\_` (the first replacement introduces no `_`,
so composing the two per character is the same as the two sequential
`String.replace` calls of the source). -/
def escapeLikeMeta (s : Str) : Str :=
  s.flatMap fun c =>
    if c = '%' then ['\\', '%'] else if c = '_' then ['\\', '_'] else [c]

/-- The pattern-extraction triage shared by `convertRegexToLike` (SQL
form) and the `$regex` branch of `convertOperator` (tree form):
a `RegExp` contributes its `source`; an object with a truthy `$regex`
member contributes that member (its `source` when it is a `RegExp`);
everything else goes through `String()`.  A string pattern is returned
as itself (`String` on a string is the identity).  A truthy `$regex`
member that is neither a string nor a `RegExp`, or a `null` receiver,
makes the JavaScript fail with a TypeError. -/
def extractPattern (regex : Value) : Except Err Str :=
  match regex with
  | .vRegExp source => .ok source
  | .vNull => .error .typeError
  | .vStr s => .ok s
  | .vObj fields =>
    match getField fields (str "$regex") with
    | some v =>
      if jsTruthy v then
        match v with
        | .vRegExp source => .ok source
        | .vStr s => .ok s
        | _ => .error .typeError
      else .ok (jsToString regex)
    | none => .ok (jsToString regex)
  | _ => .ok (jsToString regex)

/-- `convertRegexToLike(regex)`: extracts the pattern text, strips `^`/`$`
anchors, escapes the LIKE metacharacters `%` and `_`, and adds `%`
wildcards on the unanchored sides. -/
def convertRegexToLike (regex : Value) : Except Err Str :=
  match extractPattern regex with
  | .error e => .error e
  | .ok pattern =>
    let startsWithCaret := pattern.head? = some '^'
    let endsWithDollar := pattern.getLast? = some '$'
    let pattern := if startsWithCaret then pattern.drop 1 else pattern
    let pattern := if endsWithDollar then pattern.dropLast else pattern
    let pattern := escapeLikeMeta pattern
    let likePattern := if startsWithCaret then pattern else '%' :: pattern
    .ok (if endsWithDollar then likePattern else likePattern ++ ['%'])

/-- The `$in`/`$nin` branches of `processOperator`: require an array
operand, emit one `?` per element inside the parenthesised list and push
every element, in order, onto the parameter array. -/
def inListClause (field : Str) (opName : Str) (kw : Str) (value : Value)
    (parameters : List Value) : Except Err (Str × List Value) :=
  match value with
  | .vArr elems =>
    .ok (field ++ kw ++ joinSep (str ", ") (elems.map fun _ => str "?") ++ str ")",
         parameters ++ elems)
  | _ => .error (.requiresArrayValue opName)

/-- The `$regex` branch of `processOperator`: convert to a LIKE pattern,
push it, and emit a LIKE condition. -/
def regexLikeClause (field : Str) (value : Value) (parameters : List Value) :
    Except Err (Str × List Value) :=
  match convertRegexToLike value with
  | .ok likePattern => .ok (field ++ str " LIKE ?", parameters ++ [.vStr likePattern])
  | .error e => .error e

/-- The cases of the `switch (operator)` statement of `processOperator`,
reified: the ten recognised operator strings and the `default` case. -/
inductive MongoOp where
  | eqOp | neOp | gtOp | gteOp | ltOp | lteOp
  | inOp | ninOp | regexOp | notOp
  | unknown
  deriving DecidableEq

/-- The string dispatch of the `switch (operator)` statement of
`processOperator`, factored out of the recursion. -/
def mongoOpOf (operator : Str) : MongoOp :=
  if operator = str "$eq" then .eqOp
  else if operator = str "$ne" then .neOp
  else if operator = str "$gt" then .gtOp
  else if operator = str "$gte" then .gteOp
  else if operator = str "$lt" then .ltOp
  else if operator = str "$lte" then .lteOp
  else if operator = str "$in" then .inOp
  else if operator = str "$nin" then .ninOp
  else if operator = str "$regex" then .regexOp
  else if operator = str "$not" then .notOp
  else .unknown

mutual

/-- `processOperator(field, operator, value, parameters)`: one atomic
MongoDB operator.  Returns the SQL fragment together with the parameter
array after the `push` calls the source performs.  The `switch` cases
(dispatched through `mongoOpOf`) are `$eq`, `$ne`, `$gt`, `$gte`, `$lt`,
`$lte`, `$in`, `$nin`, `$regex` and `$not`; `default` throws
`Unsupported MongoDB operator`. -/
def processOperator : Nat → Str → Str → Value → List Value →
    Option (Except Err (Str × List Value))
  | 0, _, _, _, _ => none
  | fuel + 1, field, operator, value, parameters =>
    match mongoOpOf operator with
    | .eqOp => some (.ok (field ++ str " = ?", parameters ++ [value]))
    | .neOp => some (.ok (field ++ str " != ?", parameters ++ [value]))
    | .gtOp => some (.ok (field ++ str " > ?", parameters ++ [value]))
    | .gteOp => some (.ok (field ++ str " >= ?", parameters ++ [value]))
    | .ltOp => some (.ok (field ++ str " < ?", parameters ++ [value]))
    | .lteOp => some (.ok (field ++ str " <= ?", parameters ++ [value]))
    | .inOp => some (inListClause field (str "$in") (str " IN (") value parameters)
    | .ninOp => some (inListClause field (str "$nin") (str " NOT IN (") value parameters)
    | .regexOp => some (regexLikeClause field value parameters)
    | .notOp =>
      match processFieldValue fuel field value parameters with
      | some (.ok (notCondition, ps)) =>
        some (.ok (str "NOT (" ++ notCondition ++ str ")", ps))
      | some (.error e) => some (.error e)
      | none => none
    | .unknown => some (.error (.unsupportedMongo operator))

/-- The `keys.map(operator => processOperator(...))` loop of
`processFieldValue`, threading the parameter array left to right. -/
def processOps : Nat → Str → List (Str × Value) → List Value →
    Option (Except Err (List Str × List Value))
  | 0, _, _, _ => none
  | fuel + 1, field, entries, parameters =>
    match entries with
    | [] => some (.ok ([], parameters))
    | (operator, v) :: rest =>
      match processOperator fuel field operator v parameters with
      | some (.ok (c, ps)) =>
        match processOps fuel field rest ps with
        | some (.ok (cs, ps')) => some (.ok (c :: cs, ps'))
        | some (.error e) => some (.error e)
        | none => none
      | some (.error e) => some (.error e)
      | none => none

/-- `processFieldValue(field, value, parameters)`: slash-literal strings
become LIKE conditions; a non-array, non-`Date` object whose first key
starts with `$` is an operator object (its conditions are AND-joined and
parenthesised when there are several); everything else — scalars, dates,
arrays, `RegExp`s (no enumerable keys), empty objects and objects whose
first key is unsigiled — falls through to implicit equality, pushing the
value itself. -/
def processFieldValue : Nat → Str → Value → List Value →
    Option (Except Err (Str × List Value))
  | 0, _, _, _ => none
  | _ + 1, field, .vStr s, parameters =>
    if isSlashPattern (.vStr s) then
      some (.ok (field ++ str " LIKE ?",
                 parameters ++ [.vStr (convertSlashPatternToLike s)]))
    else
      some (.ok (field ++ str " = ?", parameters ++ [.vStr s]))
  | fuel + 1, field, .vObj ((k, v0) :: rest), parameters =>
    if k.head? = some '$' then
      match processOps fuel field ((k, v0) :: rest) parameters with
      | some (.ok (conditions, ps)) =>
        some (.ok ((if 1 < conditions.length then
                      str "(" ++ joinSep (str " AND ") conditions ++ str ")"
                    else joinSep [] conditions), ps))
      | some (.error e) => some (.error e)
      | none => none
    else
      some (.ok (field ++ str " = ?", parameters ++ [.vObj ((k, v0) :: rest)]))
  | _ + 1, field, value, parameters =>
    some (.ok (field ++ str " = ?", parameters ++ [value]))

end

mutual

/-- One combinator's `value.map(subFilter => convertMongoFilterToSQL(...).whereClause)`:
translates each sub-filter against the shared parameter array and collects
the clauses (before the `.filter(c => c)` step). -/
def convertList : Nat → List Value → List Value →
    Option (Except Err (List Str × List Value))
  | 0, _, _ => none
  | fuel + 1, subs, parameters =>
    match subs with
    | [] => some (.ok ([], parameters))
    | s :: rest =>
      match convertMongoFilterToSQL fuel s parameters with
      | some (.ok (c, ps)) =>
        match convertList fuel rest ps with
        | some (.ok (cs, ps')) => some (.ok (c :: cs, ps'))
        | some (.error e) => some (.error e)
        | none => none
      | some (.error e) => some (.error e)
      | none => none

/-- The `for (const key of keys)` loop of `convertMongoFilterToSQL` over an
object's fields, producing the `conditions` list.  `$and`/`$or` wrap the
surviving (non-empty) sub-clauses in one parenthesis group whenever at
least one survives; `$nor` wraps them in `NOT (...)`; any other key is a
regular field whose condition is pushed when non-empty. -/
def convertFields : Nat → List (Str × Value) → List Value →
    Option (Except Err (List Str × List Value))
  | 0, _, _ => none
  | fuel + 1, fields, parameters =>
    match fields with
    | [] => some (.ok ([], parameters))
    | (key, value) :: rest =>
      if key = str "$and" then
        match value with
        | .vArr subs =>
          match convertList fuel subs parameters with
          | some (.ok (cs, ps)) =>
            match convertFields fuel rest ps with
            | some (.ok (conds, ps')) =>
              some (.ok ((if 0 < (cs.filter fun c => !c.isEmpty).length then
                            [str "(" ++ joinSep (str " AND ")
                               (cs.filter fun c => !c.isEmpty) ++ str ")"]
                          else []) ++ conds, ps'))
            | some (.error e) => some (.error e)
            | none => none
          | some (.error e) => some (.error e)
          | none => none
        | _ => some (.error (.requiresArray (str "$and")))
      else if key = str "$or" then
        match value with
        | .vArr subs =>
          match convertList fuel subs parameters with
          | some (.ok (cs, ps)) =>
            match convertFields fuel rest ps with
            | some (.ok (conds, ps')) =>
              some (.ok ((if 0 < (cs.filter fun c => !c.isEmpty).length then
                            [str "(" ++ joinSep (str " OR ")
                               (cs.filter fun c => !c.isEmpty) ++ str ")"]
                          else []) ++ conds, ps'))
            | some (.error e) => some (.error e)
            | none => none
          | some (.error e) => some (.error e)
          | none => none
        | _ => some (.error (.requiresArray (str "$or")))
      else if key = str "$nor" then
        match value with
        | .vArr subs =>
          match convertList fuel subs parameters with
          | some (.ok (cs, ps)) =>
            match convertFields fuel rest ps with
            | some (.ok (conds, ps')) =>
              some (.ok ((if 0 < (cs.filter fun c => !c.isEmpty).length then
                            [str "NOT (" ++ joinSep (str " OR ")
                               (cs.filter fun c => !c.isEmpty) ++ str ")"]
                          else []) ++ conds, ps'))
            | some (.error e) => some (.error e)
            | none => none
          | some (.error e) => some (.error e)
          | none => none
        | _ => some (.error (.requiresArray (str "$nor")))
      else
        match processFieldValue fuel key value parameters with
        | some (.ok (condition, ps)) =>
          match convertFields fuel rest ps with
          | some (.ok (conds, ps')) =>
            some (.ok ((if !condition.isEmpty then [condition] else []) ++ conds, ps'))
          | some (.error e) => some (.error e)
          | none => none
        | some (.error e) => some (.error e)
        | none => none

/-- The same loop when the top-level "document" is an array: `Object.keys`
enumerates the decimal index strings, none of which is a combinator key,
so every element goes through `processFieldValue` under its index. -/
def convertElems : Nat → Nat → List Value → List Value →
    Option (Except Err (List Str × List Value))
  | 0, _, _, _ => none
  | fuel + 1, i, elems, parameters =>
    match elems with
    | [] => some (.ok ([], parameters))
    | e :: rest =>
      match processFieldValue fuel (natToStr i) e parameters with
      | some (.ok (condition, ps)) =>
        match convertElems fuel (i + 1) rest ps with
        | some (.ok (conds, ps')) =>
          some (.ok ((if !condition.isEmpty then [condition] else []) ++ conds, ps'))
        | some (.error e) => some (.error e)
        | none => none
      | some (.error e) => some (.error e)
      | none => none

/-- `convertMongoFilterToSQL(filter, parameters)`: returns the WHERE text
and the parameter array after the call.  Falsy and non-object inputs, and
objects without enumerable keys (`{}`, dates, regexps), yield an empty
clause; the early `return { whereClause: '', parameters: [] }` of the
source hands back a fresh empty array while leaving the shared one
untouched, which this state-passing form renders by returning the state
unchanged (the two coincide at every call site: recursive callers read
only `whereClause`, and the public entry point starts from `[]`). -/
def convertMongoFilterToSQL : Nat → Value → List Value →
    Option (Except Err (Str × List Value))
  | 0, _, _ => none
  | fuel + 1, .vObj (f :: fs), parameters =>
    match convertFields fuel (f :: fs) parameters with
    | some (.ok (conditions, ps)) =>
      some (.ok ((if 1 < conditions.length then joinSep (str " AND ") conditions
                  else conditions.headD []), ps))
    | some (.error e) => some (.error e)
    | none => none
  | fuel + 1, .vArr (e :: es), parameters =>
    match convertElems fuel 0 (e :: es) parameters with
    | some (.ok (conditions, ps)) =>
      some (.ok ((if 1 < conditions.length then joinSep (str " AND ") conditions
                  else conditions.headD []), ps))
    | some (.error e) => some (.error e)
    | none => none
  | _ + 1, _, parameters => some (.ok ([], parameters))

end

/-- The public result object `{ whereClause, parameters }`. -/
structure SqlResult where
  whereClause : Str
  parameters : List Value

/-- The public call `convertMongoFilterToSQL(filter)` with the default
fresh `parameters = []`. -/
def convertMongoFilterToSQLCall (fuel : Nat) (filter : Value) :
    Option (Except Err SqlResult) :=
  match convertMongoFilterToSQL fuel filter [] with
  | some (.ok (whereClause, parameters)) => some (.ok ⟨whereClause, parameters⟩)
  | some (.error e) => some (.error e)
  | none => none

/-! ## Tree form: `parseSQLFilter` in `utils/filter.utils.js` -/

/-- The Sequelize operator tokens (`Op.eq`, `Op.ne`, ...) the tree form
emits.  They are opaque, pairwise distinct symbols supplied by the caller;
the constructors below model exactly the tokens `filter.utils.js` reads
off the `Op` object. -/
inductive OpTok where
  | eq | ne | gt | gte | lt | lte
  | in' | notIn
  | like | notLike | iLike | notILike
  | regexp | notRegexp
  | between | notBetween
  | is' | not'
  | and' | or'
  deriving DecidableEq

/-- A property key of a result object: an ordinary string key, or one of
the symbol keys `[Op.x]`. -/
inductive SKey where
  | strKey (s : Str)
  | opKey (o : OpTok)
  deriving DecidableEq

/-- A value in the tree the Sequelize converter builds: `raw v` is an
original input value placed into the output (operands, whole arrays,
LIKE-pattern strings), `obj` an object literal built by the converter, and
`arr` an array built by the converter (the mapped sub-filter lists of the
combinators). -/
inductive SeqVal where
  | raw (v : Value)
  | obj (entries : List (SKey × SeqVal))
  | arr (xs : List SeqVal)

/-- A LIKE-pattern string placed into the tree. -/
def SeqVal.strLit (s : Str) : SeqVal := .raw (.vStr s)

/-- `result[key] = v` on an object literal: overwrite in place when the
key exists, append otherwise (JavaScript property assignment order). -/
def setEntry : List (SKey × SeqVal) → SKey → SeqVal → List (SKey × SeqVal)
  | [], key, v => [(key, v)]
  | (k, w) :: rest, key, v =>
    if k = key then (key, v) :: rest else (k, w) :: setEntry rest key v

/-- `Object.assign(result, converted)` where `converted` is an object
literal (every `convertOperator` result is one; a non-object source would
contribute no enumerable properties here). -/
def assignEntries (acc : List (SKey × SeqVal)) : SeqVal → List (SKey × SeqVal)
  | .obj es => es.foldl (fun a e => setEntry a e.1 e.2) acc
  | _ => acc

namespace parseSQLFilter

/-- `parseSQLFilter.isSlashPattern`, textually identical to the SQL form's
check. -/
def isSlashPattern : Value → Bool
  | .vStr s => decide (2 ≤ s.length) && decide (s.head? = some '/') && decide (s.getLast? = some '/')
  | _ => false

/-- `parseSQLFilter.convertSlashPatternToLike`, textually identical to the
SQL form's conversion. -/
def convertSlashPatternToLike (pattern : Str) : Str :=
  let innerPattern := (pattern.drop 1).dropLast
  let startsWithCaret := innerPattern.head? = some '^'
  let endsWithDollar := innerPattern.getLast? = some '$'
  let cleanPattern := if startsWithCaret then innerPattern.drop 1 else innerPattern
  let cleanPattern := if endsWithDollar then cleanPattern.dropLast else cleanPattern
  let likePattern := if startsWithCaret then cleanPattern else '%' :: cleanPattern
  if endsWithDollar then likePattern else likePattern ++ ['%']

/-- The `operatorMap` table of `convertOperator`.  Note that it has no
`$regex` entry (and none for the combinators `$and`/`$or`/`$nor`), so a
lookup of those keys yields `undefined`. -/
def operatorMap (operator : Str) : Option OpTok :=
  if operator = str "$eq" then some .eq
  else if operator = str "$ne" then some .ne
  else if operator = str "$gt" then some .gt
  else if operator = str "$gte" then some .gte
  else if operator = str "$lt" then some .lt
  else if operator = str "$lte" then some .lte
  else if operator = str "$in" then some .in'
  else if operator = str "$nin" then some .notIn
  else if operator = str "$like" then some .like
  else if operator = str "$notLike" then some .notLike
  else if operator = str "$iLike" then some .iLike
  else if operator = str "$notILike" then some .notILike
  else if operator = str "$regexp" then some .regexp
  else if operator = str "$notRegexp" then some .notRegexp
  else if operator = str "$between" then some .between
  else if operator = str "$notBetween" then some .notBetween
  else if operator = str "$is" then some .is'
  else if operator = str "$not" then some .not'
  else none

/-- The body of the `if (operator === '$regex')` branch of
`convertOperator`: the same anchor logic as the SQL form but with **no**
escaping of `%`/`_`, wrapped under `Op.like`.  Because `operatorMap` has
no `$regex` entry, the lookup above this branch throws first, so in the
source this code is unreachable; it is embedded faithfully all the same. -/
def regexLikeNode (value : Value) : Except Err SeqVal :=
  match extractPattern value with
  | .error e => .error e
  | .ok pattern =>
    let startsWithCaret := pattern.head? = some '^'
    let endsWithDollar := pattern.getLast? = some '$'
    let pattern := if startsWithCaret then pattern.drop 1 else pattern
    let pattern := if endsWithDollar then pattern.dropLast else pattern
    let likePattern := if startsWithCaret then pattern else '%' :: pattern
    .ok (.obj [(.opKey .like,
      .strLit (if endsWithDollar then likePattern else likePattern ++ ['%']))])

/-- The special-case dispatch inside `convertOperator` after the table
lookup: `operator === '$regex'`, `operator === '$not'`, or neither. -/
inductive TreeOpKind where
  | regexK | notK | plainK
  deriving DecidableEq

/-- The two string comparisons of `convertOperator`, factored out of the
recursion. -/
def treeOpKindOf (operator : Str) : TreeOpKind :=
  if operator = str "$regex" then .regexK
  else if operator = str "$not" then .notK
  else .plainK

mutual

/-- `parseSQLFilter.convertOperator(operator, value, Op)`: looks the key
up in `operatorMap` and throws `Unsupported operator` on a miss — which
is what `$regex` hits, its special-case branch being dead; `$not`
recursively converts its operand under `Op.not`; every other hit wraps
the raw operand under its token, with no shape check (in particular
`$in`/`$nin` accept non-array operands). -/
def convertOperator : Nat → Str → Value → Option (Except Err SeqVal)
  | 0, _, _ => none
  | fuel + 1, operator, value =>
    match operatorMap operator with
    | none => some (.error (.unsupportedSeq operator))
    | some seqOp =>
      match treeOpKindOf operator with
      | .regexK => some (regexLikeNode value)
      | .notK =>
        match convertValue fuel value with
        | some (.ok inner) => some (.ok (.obj [(.opKey .not', inner)]))
        | some (.error e) => some (.error e)
        | none => none
      | .plainK => some (.ok (.obj [(.opKey seqOp, .raw value)]))

/-- The `for (const operator in value)` loop of `convertValue`, folding
`Object.assign` over the converted operator objects. -/
def convertOps : Nat → List (Str × Value) → List (SKey × SeqVal) →
    Option (Except Err (List (SKey × SeqVal)))
  | 0, _, _ => none
  | fuel + 1, entries, acc =>
    match entries with
    | [] => some (.ok acc)
    | (operator, v) :: rest =>
      match convertOperator fuel operator v with
      | some (.ok converted) => convertOps fuel rest (assignEntries acc converted)
      | some (.error e) => some (.error e)
      | none => none

/-- `parseSQLFilter.convertValue(value, Op)`: `null`/`undefined`, dates
and plain scalars become `{ [Op.eq]: value }`; slash literals become
`{ [Op.like]: pattern }`; arrays become an implicit `{ [Op.in]: value }`;
a non-empty object whose first key starts with `$` has each entry
converted through `convertOperator` and merged; anything else (including
`{}`, `RegExp`s, and objects with an unsigiled first key) is implicit
equality on the whole value. -/
def convertValue : Nat → Value → Option (Except Err SeqVal)
  | 0, _ => none
  | _ + 1, .vNull => some (.ok (.obj [(.opKey .eq, .raw .vNull)]))
  | _ + 1, .vUndefined => some (.ok (.obj [(.opKey .eq, .raw .vUndefined)]))
  | _ + 1, .vStr s =>
    if isSlashPattern (.vStr s) then
      some (.ok (.obj [(.opKey .like, .strLit (convertSlashPatternToLike s))]))
    else
      some (.ok (.obj [(.opKey .eq, .raw (.vStr s))]))
  | _ + 1, .vDate t => some (.ok (.obj [(.opKey .eq, .raw (.vDate t))]))
  | _ + 1, .vArr elems => some (.ok (.obj [(.opKey .in', .raw (.vArr elems))]))
  | fuel + 1, .vObj ((k, v0) :: rest) =>
    if k.head? = some '$' then
      match convertOps fuel ((k, v0) :: rest) [] with
      | some (.ok result) => some (.ok (.obj result))
      | some (.error e) => some (.error e)
      | none => none
    else
      some (.ok (.obj [(.opKey .eq, .raw (.vObj ((k, v0) :: rest)))]))
  | _ + 1, value => some (.ok (.obj [(.opKey .eq, .raw value)]))

end

mutual

/-- `value.map(subFilter => this.FilterParse(subFilter, Op))` under a
combinator key. -/
def parseList : Nat → List Value → Option (Except Err (List SeqVal))
  | 0, _ => none
  | fuel + 1, subs =>
    match subs with
    | [] => some (.ok [])
    | s :: rest =>
      match FilterParse fuel s with
      | some (.ok v) =>
        match parseList fuel rest with
        | some (.ok vs) => some (.ok (v :: vs))
        | some (.error e) => some (.error e)
        | none => none
      | some (.error e) => some (.error e)
      | none => none

/-- The `for (const key in filter)` loop of `FilterParse`, building the
fresh `result` object: `$and`/`$or` map their sub-filter arrays under
`Op.and`/`Op.or`; `$nor` nests the mapped array under `Op.or` inside a
single `Op.not`; any other key has its value converted with
`convertValue`. -/
def parseFields : Nat → List (Str × Value) → List (SKey × SeqVal) →
    Option (Except Err (List (SKey × SeqVal)))
  | 0, _, _ => none
  | fuel + 1, fields, acc =>
    match fields with
    | [] => some (.ok acc)
    | (key, value) :: rest =>
      if key = str "$and" then
        match value with
        | .vArr subs =>
          match parseList fuel subs with
          | some (.ok vs) => parseFields fuel rest (setEntry acc (.opKey .and') (.arr vs))
          | some (.error e) => some (.error e)
          | none => none
        | _ => some (.error (.requiresArray (str "$and")))
      else if key = str "$or" then
        match value with
        | .vArr subs =>
          match parseList fuel subs with
          | some (.ok vs) => parseFields fuel rest (setEntry acc (.opKey .or') (.arr vs))
          | some (.error e) => some (.error e)
          | none => none
        | _ => some (.error (.requiresArray (str "$or")))
      else if key = str "$nor" then
        match value with
        | .vArr subs =>
          match parseList fuel subs with
          | some (.ok vs) =>
            parseFields fuel rest
              (setEntry acc (.opKey .not') (.obj [(.opKey .or', .arr vs)]))
          | some (.error e) => some (.error e)
          | none => none
        | _ => some (.error (.requiresArray (str "$nor")))
      else
        match convertValue fuel value with
        | some (.ok sv) => parseFields fuel rest (setEntry acc (.strKey key) sv)
        | some (.error e) => some (.error e)
        | none => none

/-- `parseSQLFilter.FilterParse(filter, Op)`: falsy values, non-objects
and arrays are returned unchanged; dates and regexps have no enumerable
keys, so their loop body never runs and the fresh empty `result` comes
back; objects are traversed field by field. -/
def FilterParse : Nat → Value → Option (Except Err SeqVal)
  | 0, _ => none
  | fuel + 1, .vObj fields =>
    match parseFields fuel fields [] with
    | some (.ok result) => some (.ok (.obj result))
    | some (.error e) => some (.error e)
    | none => none
  | _ + 1, .vDate _ => some (.ok (.obj []))
  | _ + 1, .vRegExp _ => some (.ok (.obj []))
  | _ + 1, filter => some (.ok (.raw filter))

end

end parseSQLFilter

/-! ## General notions used by the claims -/

/-- Number of `?` characters in a piece of WHERE text.  On clauses whose
field names contain no `?`, this is exactly the number of positional
placeholders. -/
def countQ (s : Str) : Nat := s.count '?'

/-- Whether a value is a JavaScript array (`Array.isArray`). -/
def Value.isArrayB : Value → Bool
  | .vArr _ => true
  | _ => false

mutual

/-- No key anywhere in the document contains a `?` character (so every
`?` of the produced WHERE text is a placeholder). -/
def qFreeKeys : Value → Bool
  | .vArr xs => qFreeList xs
  | .vObj fs => qFreeFields fs
  | _ => true

/-- `qFreeKeys` on every element of an array. -/
def qFreeList : List Value → Bool
  | [] => true
  | x :: xs => qFreeKeys x && qFreeList xs

/-- `qFreeKeys` on every field of an object, and no `?` in its keys. -/
def qFreeFields : List (Str × Value) → Bool
  | [] => true
  | (k, v) :: rest => decide (countQ k = 0) && qFreeKeys v && qFreeFields rest

end

/-! ## Claim C3 -/

/-- Claim C3 (code bug): the spec says a `$regex` operator value resolves
to a LIKE condition in both target forms, with anchor handling and
escaping of literal `%`/`_`.  The SQL form does exactly that (third
conjunct: anchors stripped, `%`→`\%`, `_`→`\_`, wildcard appended).  But
in the tree form the `operatorMap` table has no `$regex` entry (second
conjunct), so `convertOperator` throws `Unsupported operator: $regex`
before its `$regex` special case can run (first conjunct) — the branch
embedded as `regexLikeNode` is dead code, and even it would not escape
`%`/`_` (fourth conjunct).  This contradicts the repository's own
`SEQUELIZE_FILTER_GUIDE.md`, which documents `{name: {$regex: /^John/}}`
→ `{name: {[Op.like]: 'John%'}}` for the tree form. -/
theorem regex_resolution_code_bug :
    parseSQLFilter.FilterParse 10
      (.vObj [(str "name", .vObj [(str "$regex", .vStr (str "^Jo"))])]) =
      some (.error (.unsupportedSeq (str "$regex"))) ∧
    parseSQLFilter.operatorMap (str "$regex") = none ∧
    convertMongoFilterToSQLCall 10
      (.vObj [(str "name", .vObj [(str "$regex", .vStr (str "^Jo%x_y"))])]) =
      some (.ok ⟨str "name LIKE ?", [.vStr (str "Jo\\%x\\_y%")]⟩) ∧
    parseSQLFilter.regexLikeNode (.vStr (str "^Jo%x_y")) =
      .ok (.obj [(.opKey .like, .strLit (str "Jo%x_y%"))]) :=
  ⟨rfl, rfl, rfl, rfl⟩

/-! ## Claim C10 -/

/-- Claim C10 (confirmed): the tree-form translator returns `null`,
`undefined`, booleans, numbers, strings and arrays unchanged (the `.raw`
constructor marks an input value returned as-is); it neither fails nor
returns an empty mapping on them.  Only objects are traversed. -/
theorem filterParse_nonobject_identity (fuel : Nat) :
    parseSQLFilter.FilterParse (fuel + 1) .vNull = some (.ok (.raw .vNull)) ∧
    parseSQLFilter.FilterParse (fuel + 1) .vUndefined = some (.ok (.raw .vUndefined)) ∧
    (∀ b, parseSQLFilter.FilterParse (fuel + 1) (.vBool b) = some (.ok (.raw (.vBool b)))) ∧
    (∀ n, parseSQLFilter.FilterParse (fuel + 1) (.vNum n) = some (.ok (.raw (.vNum n)))) ∧
    (∀ s, parseSQLFilter.FilterParse (fuel + 1) (.vStr s) = some (.ok (.raw (.vStr s)))) ∧
    (∀ elems, parseSQLFilter.FilterParse (fuel + 1) (.vArr elems) =
      some (.ok (.raw (.vArr elems)))) :=
  ⟨rfl, rfl, fun _ => rfl, fun _ => rfl, fun _ => rfl, fun _ => rfl⟩

/-! ## Claim C8 -/

/-- Claim C8, counterexample: the spec says a field whose value is `{}`
(or a non-array object with unsigiled keys) fails with
`InvalidFilterShape`; in fact both translators succeed and treat the
object as an implicit-equality operand. -/
theorem empty_operator_object_no_error :
    convertMongoFilterToSQLCall 10 (.vObj [(str "tags", .vObj [])]) =
      some (.ok ⟨str "tags = ?", [.vObj []]⟩) ∧
    parseSQLFilter.FilterParse 10 (.vObj [(str "tags", .vObj [])]) =
      some (.ok (.obj [(.strKey (str "tags")
        , .obj [(.opKey .eq, .raw (.vObj []))])])) :=
  ⟨rfl, rfl⟩

/-- Claim C8 as amended: a field value that is an empty object `{}`, or a
non-array object whose first key does not start with `$`, produces no
error in either translator: the SQL form emits `field = ?` and pushes the
whole object as the parameter, and the tree form wraps the whole object
under the equality token. -/
theorem unsigiled_object_implicit_equality (fuel : Nat) (field : Str)
    (ps : List Value) (k : Str) (v : Value) (rest : List (Str × Value))
    (h : ¬k.head? = some '$') :
    processFieldValue (fuel + 1) field (.vObj []) ps =
      some (.ok (field ++ str " = ?", ps ++ [.vObj []])) ∧
    processFieldValue (fuel + 1) field (.vObj ((k, v) :: rest)) ps =
      some (.ok (field ++ str " = ?", ps ++ [.vObj ((k, v) :: rest)])) ∧
    parseSQLFilter.convertValue (fuel + 1) (.vObj []) =
      some (.ok (.obj [(.opKey .eq, .raw (.vObj []))])) ∧
    parseSQLFilter.convertValue (fuel + 1) (.vObj ((k, v) :: rest)) =
      some (.ok (.obj [(.opKey .eq, .raw (.vObj ((k, v) :: rest)))])) := by
  refine ⟨rfl, ?_, rfl, ?_⟩
  · simp [processFieldValue, h]
  · simp [parseSQLFilter.convertValue, h]

/-- Witness for `unsigiled_object_implicit_equality` at `field = "tags"`,
`{a: 1}` as the value. -/
theorem unsigiled_object_implicit_equality_witness :
    processFieldValue 5 (str "tags") (.vObj [(str "a", .vNum 1)]) [] =
      some (.ok (str "tags" ++ str " = ?", [] ++ [.vObj [(str "a", .vNum 1)]])) :=
  (unsigiled_object_implicit_equality 4 (str "tags") [] (str "a") (.vNum 1) []
    (by decide)).2.1

/-! ## Claim C7 -/

/-- Claim C7, counterexample: the spec says a non-array operand under any
of `$in`/`$nin`/`$and`/`$or`/`$nor` makes **both** translators fail; the
tree form has no array check for `$in`/`$nin` and happily wraps the
non-array operand under the membership token. -/
theorem tree_in_nonarray_no_error :
    parseSQLFilter.FilterParse 10
      (.vObj [(str "status", .vObj [(str "$in", .vStr (str "x"))])]) =
      some (.ok (.obj [(.strKey (str "status")
        , .obj [(.opKey .in', .raw (.vStr (str "x")))])])) :=
  rfl

/-- Claim C7 as amended: a non-array operand is rejected, with the failure
propagating to the caller, by the SQL form for all five of
`$in`/`$nin`/`$and`/`$or`/`$nor`, and by the tree form for the three
combinators `$and`/`$or`/`$nor` — but not for the tree form's
`$in`/`$nin`, which accept any operand (last two conjuncts). -/
theorem nonarray_operand_rejection (fuel : Nat) (field : Str) (v : Value)
    (rest : List (Str × Value)) (ps : List Value)
    (h : v.isArrayB = false) :
    processOperator (fuel + 1) field (str "$in") v ps =
      some (.error (.requiresArrayValue (str "$in"))) ∧
    processOperator (fuel + 1) field (str "$nin") v ps =
      some (.error (.requiresArrayValue (str "$nin"))) ∧
    convertMongoFilterToSQL (fuel + 2) (.vObj ((str "$and", v) :: rest)) ps =
      some (.error (.requiresArray (str "$and"))) ∧
    convertMongoFilterToSQL (fuel + 2) (.vObj ((str "$or", v) :: rest)) ps =
      some (.error (.requiresArray (str "$or"))) ∧
    convertMongoFilterToSQL (fuel + 2) (.vObj ((str "$nor", v) :: rest)) ps =
      some (.error (.requiresArray (str "$nor"))) ∧
    parseSQLFilter.FilterParse (fuel + 2) (.vObj ((str "$and", v) :: rest)) =
      some (.error (.requiresArray (str "$and"))) ∧
    parseSQLFilter.FilterParse (fuel + 2) (.vObj ((str "$or", v) :: rest)) =
      some (.error (.requiresArray (str "$or"))) ∧
    parseSQLFilter.FilterParse (fuel + 2) (.vObj ((str "$nor", v) :: rest)) =
      some (.error (.requiresArray (str "$nor"))) ∧
    parseSQLFilter.convertOperator (fuel + 1) (str "$in") v =
      some (.ok (.obj [(.opKey .in', .raw v)])) ∧
    parseSQLFilter.convertOperator (fuel + 1) (str "$nin") v =
      some (.ok (.obj [(.opKey .notIn, .raw v)])) := by
  cases v <;> simp_all [Value.isArrayB] <;>
    exact ⟨rfl, rfl, rfl, rfl, rfl, rfl, rfl, rfl, rfl, rfl⟩

/-- Witness for `nonarray_operand_rejection` at the spec's own example
`{$and: "x"}` (with an extra irrelevant trailing field), showing the
`$and` rejection reach the public entry point. -/
theorem nonarray_operand_rejection_witness :
    convertMongoFilterToSQL 5 (.vObj [(str "$and", .vStr (str "x"))]) [] =
      some (.error (.requiresArray (str "$and"))) :=
  (nonarray_operand_rejection 3 (str "f") (.vStr (str "x")) [] [] (by decide)).2.2.1

/-! ## Claim C4 -/

/-- The operator keys the SQL form's `switch` recognises. -/
def sqlAtomicOps : List Str :=
  [str "$eq", str "$ne", str "$gt", str "$gte", str "$lt", str "$lte",
   str "$in", str "$nin", str "$regex", str "$not"]

/-- The operator keys present in the tree form's `operatorMap`. -/
def treeAtomicOps : List Str :=
  [str "$eq", str "$ne", str "$gt", str "$gte", str "$lt", str "$lte",
   str "$in", str "$nin", str "$like", str "$notLike", str "$iLike",
   str "$notILike", str "$regexp", str "$notRegexp", str "$between",
   str "$notBetween", str "$is", str "$not"]

/-- The closed operator set named by the specification (claim C4), as
filter keys. -/
def claimedOperatorKeys : List Str :=
  [str "$eq", str "$ne", str "$gt", str "$gte", str "$lte", str "$lt",
   str "$in", str "$nin", str "$like", str "$notLike", str "$iLike",
   str "$notILike", str "$regexp", str "$notRegexp", str "$between",
   str "$notBetween", str "$is", str "$not", str "$and", str "$or",
   str "$nor", str "$regex"]

/-- Outside the ten recognised SQL-form operators, the `switch` falls to
its `default` case. -/
theorem mongoOpOf_eq_unknown (op : Str) (h : op ∉ sqlAtomicOps) :
    mongoOpOf op = .unknown := by
  simp only [sqlAtomicOps, List.mem_cons, List.not_mem_nil, or_false, not_or] at h
  obtain ⟨h1, h2, h3, h4, h5, h6, h7, h8, h9, h10⟩ := h
  simp [mongoOpOf, h1, h2, h3, h4, h5, h6, h7, h8, h9, h10]

/-- Outside the eighteen `operatorMap` entries, the tree form's lookup
yields `undefined`. -/
theorem operatorMap_eq_none (op : Str) (h : op ∉ treeAtomicOps) :
    parseSQLFilter.operatorMap op = none := by
  simp only [treeAtomicOps, List.mem_cons, List.not_mem_nil, or_false, not_or] at h
  obtain ⟨h1, h2, h3, h4, h5, h6, h7, h8, h9, h10,
    h11, h12, h13, h14, h15, h16, h17, h18⟩ := h
  simp [parseSQLFilter.operatorMap, h1, h2, h3, h4, h5, h6, h7, h8, h9, h10,
    h11, h12, h13, h14, h15, h16, h17, h18]

/-- Claim C4, counterexample: the spec's closed set includes `like` (and
`between`, `is`, ...), yet the SQL form rejects `$like` as unsupported;
it includes `regex`, yet the tree form rejects `$regex`; and it includes
`and`/`or`/`nor`, yet both atomic resolvers reject them (they are handled
only as document-level combinators). -/
theorem claimed_operator_set_counterexample :
    (str "$like") ∈ claimedOperatorKeys ∧
    processOperator 5 (str "f") (str "$like") (.vStr (str "x")) [] =
      some (.error (.unsupportedMongo (str "$like"))) ∧
    (str "$regex") ∈ claimedOperatorKeys ∧
    parseSQLFilter.convertOperator 5 (str "$regex") (.vStr (str "x")) =
      some (.error (.unsupportedSeq (str "$regex"))) ∧
    (str "$and") ∈ claimedOperatorKeys ∧
    processOperator 5 (str "f") (str "$and") (.vArr []) [] =
      some (.error (.unsupportedMongo (str "$and"))) ∧
    parseSQLFilter.convertOperator 5 (str "$and") (.vArr []) =
      some (.error (.unsupportedSeq (str "$and"))) :=
  ⟨by decide, rfl, by decide, rfl, by decide, rfl, rfl⟩

/-- Claim C4 as amended: resolving an atomic operator key succeeds exactly
for `{$eq,$ne,$gt,$gte,$lt,$lte,$in,$nin,$regex,$not}` in the SQL form
and exactly for the eighteen `operatorMap` keys in the tree form; any
other key — including `$like` in the SQL form, `$regex` in the tree form,
and `$and`/`$or`/`$nor` in both — fails with the respective
`Unsupported operator` error. -/
theorem atomic_operator_sets (op : Str) :
    (op ∉ sqlAtomicOps → ∀ fuel field v ps,
      processOperator (fuel + 1) field op v ps =
        some (.error (.unsupportedMongo op))) ∧
    (op ∉ treeAtomicOps → ∀ fuel v,
      parseSQLFilter.convertOperator (fuel + 1) op v =
        some (.error (.unsupportedSeq op))) ∧
    (op ∈ sqlAtomicOps → ∃ v r,
      processOperator 5 (str "f") op v [] = some (.ok r)) ∧
    (op ∈ treeAtomicOps → ∃ v r,
      parseSQLFilter.convertOperator 5 op v = some (.ok r)) := by
  refine ⟨?_, ?_, ?_, ?_⟩
  · intro h fuel field v ps
    simp [processOperator, mongoOpOf_eq_unknown op h]
  · intro h fuel v
    simp [parseSQLFilter.convertOperator, operatorMap_eq_none op h]
  · intro h
    simp only [sqlAtomicOps, List.mem_cons, List.not_mem_nil, or_false] at h
    rcases h with rfl | rfl | rfl | rfl | rfl | rfl | rfl | rfl | rfl | rfl
    · exact ⟨.vNum 0, _, rfl⟩
    · exact ⟨.vNum 0, _, rfl⟩
    · exact ⟨.vNum 0, _, rfl⟩
    · exact ⟨.vNum 0, _, rfl⟩
    · exact ⟨.vNum 0, _, rfl⟩
    · exact ⟨.vNum 0, _, rfl⟩
    · exact ⟨.vArr [], _, rfl⟩
    · exact ⟨.vArr [], _, rfl⟩
    · exact ⟨.vStr (str "x"), _, rfl⟩
    · exact ⟨.vNum 0, _, rfl⟩
  · intro h
    simp only [treeAtomicOps, List.mem_cons, List.not_mem_nil, or_false] at h
    rcases h with rfl | rfl | rfl | rfl | rfl | rfl | rfl | rfl | rfl | rfl
      | rfl | rfl | rfl | rfl | rfl | rfl | rfl | rfl
    all_goals exact ⟨.vNum 0, _, rfl⟩

/-- Witness for `atomic_operator_sets` at `$between`: a key inside the
tree form's set but outside the SQL form's. -/
theorem atomic_operator_sets_witness :
    processOperator 5 (str "f") (str "$between") (.vNum 0) [] =
      some (.error (.unsupportedMongo (str "$between"))) ∧
    (∃ v r, parseSQLFilter.convertOperator 5 (str "$between") v =
      some (.ok r)) :=
  ⟨(atomic_operator_sets (str "$between")).1 (by decide) 4 (str "f") (.vNum 0) [],
   (atomic_operator_sets (str "$between")).2.2.2 (by decide)⟩

/-! ## Claim C6 -/

/-- Strip one leading `^`, stated as the claim states it. -/
def stripLeadCaret : Str → Str
  | [] => []
  | c :: t => if c = '^' then t else c :: t

/-- Strip one trailing `$`, stated as the claim states it. -/
def stripTrailDollar (l : Str) : Str :=
  match l.reverse with
  | [] => l
  | c :: t => if c = '$' then t.reverse else l

/-- The LIKE pattern as described by claim C6: the inner text (the slash
delimiters removed) with a leading `^` and trailing `$` stripped, `%`
prepended exactly when no leading `^` was present and `%` appended
exactly when no trailing `$` was present. -/
def claimSlashLike (s : Str) : Str :=
  let inner := (s.drop 1).dropLast
  (if inner.head? = some '^' then [] else ['%']) ++
    stripTrailDollar (stripLeadCaret inner) ++
    (if inner.getLast? = some '$' then [] else ['%'])

theorem stripLeadCaret_eq (l : Str) :
    stripLeadCaret l = if l.head? = some '^' then l.drop 1 else l := by
  cases l with
  | nil => simp [stripLeadCaret]
  | cons c t => by_cases hc : c = '^' <;> simp [stripLeadCaret, hc]

theorem stripTrailDollar_eq (l : Str) :
    stripTrailDollar l = if l.getLast? = some '$' then l.dropLast else l := by
  rcases h : l.reverse with _ | ⟨c, t⟩
  · have hl : l = [] := by
      have := congrArg List.reverse h
      simpa using this
    subst hl
    simp [stripTrailDollar]
  · have hl : l = t.reverse ++ [c] := by
      have := congrArg List.reverse h
      simpa [List.reverse_cons] using this
    subst hl
    by_cases hd : c = '$' <;>
      simp [stripTrailDollar, List.reverse_append, List.getLast?_concat,
        List.dropLast_concat, hd]

/-- Stripping a leading `^` does not change whether the text ends in `$`
(the only corner is the one-character text `"^"`, which ends in neither). -/
theorem dollar_after_caret (l : Str) (h : l.head? = some '^') :
    ((l.drop 1).getLast? = some '$') = (l.getLast? = some '$') := by
  rcases l with _ | ⟨c, t⟩
  · simp at h
  · simp only [List.head?_cons, Option.some.injEq] at h
    subst h
    rcases t with _ | ⟨d, u⟩
    · simp [List.getLast?]
    · simp [List.getLast?_cons_cons]

/-- The slash-literal compiler agrees with the claim's formula, on every
string. -/
theorem convertSlash_aux (inner : Str) :
    (let startsWithCaret := inner.head? = some '^'
     let endsWithDollar := inner.getLast? = some '$'
     let cleanPattern := if startsWithCaret then inner.drop 1 else inner
     let cleanPattern := if endsWithDollar then cleanPattern.dropLast else cleanPattern
     let likePattern := if startsWithCaret then cleanPattern else '%' :: cleanPattern
     if endsWithDollar then likePattern else likePattern ++ ['%']) =
    (if inner.head? = some '^' then [] else ['%']) ++
      stripTrailDollar (stripLeadCaret inner) ++
      (if inner.getLast? = some '$' then [] else ['%']) := by
  simp only [stripLeadCaret_eq, stripTrailDollar_eq]
  by_cases hc : inner.head? = some '^'
  · by_cases hd : inner.getLast? = some '$' <;>
      simp only [hc, hd, dollar_after_caret inner hc, if_true, if_false,
        ite_true, ite_false, eq_self_iff_true, not_false_iff,
        List.nil_append, List.append_nil, List.singleton_append]
  · by_cases hd : inner.getLast? = some '$' <;>
      simp only [hc, hd, if_true, if_false, ite_true, ite_false,
        eq_self_iff_true, not_false_iff,
        List.nil_append, List.append_nil, List.singleton_append]

theorem convertSlash_eq_claim (s : Str) :
    convertSlashPatternToLike s = claimSlashLike s :=
  convertSlash_aux ((s.drop 1).dropLast)

/-- Claim C6 (confirmed): for every slash-delimited field value, the
compiled LIKE pattern (in both modules — the two copies of
`convertSlashPatternToLike` are identical) is the inner text with the
anchors stripped and `%` added exactly on the unanchored sides; a
slash-literal field resolves to a `LIKE ?` condition pushing that
pattern; and the spec's two examples hold end-to-end. -/
theorem slash_literal_like (s : Str) (h : isSlashPattern (.vStr s) = true) :
    convertSlashPatternToLike s = claimSlashLike s ∧
    parseSQLFilter.convertSlashPatternToLike s = claimSlashLike s ∧
    (∀ fuel field ps, processFieldValue (fuel + 1) field (.vStr s) ps =
      some (.ok (field ++ str " LIKE ?", ps ++ [.vStr (convertSlashPatternToLike s)]))) ∧
    (∀ fuel, parseSQLFilter.convertValue (fuel + 1) (.vStr s) =
      some (.ok (.obj [(.opKey .like, .strLit (convertSlashPatternToLike s))]))) ∧
    convertMongoFilterToSQLCall 5 (.vObj [(str "name", .vStr (str "/joh/"))]) =
      some (.ok ⟨str "name LIKE ?", [.vStr (str "%joh%")]⟩) ∧
    convertMongoFilterToSQLCall 5 (.vObj [(str "name", .vStr (str "/^John/"))]) =
      some (.ok ⟨str "name LIKE ?", [.vStr (str "John%")]⟩) := by
  have hsame : parseSQLFilter.convertSlashPatternToLike = convertSlashPatternToLike := rfl
  have hsp : parseSQLFilter.isSlashPattern (.vStr s) = true := h
  refine ⟨convertSlash_eq_claim s, by rw [hsame]; exact convertSlash_eq_claim s,
    ?_, ?_, rfl, rfl⟩
  · intro fuel field ps
    simp [processFieldValue, h]
  · intro fuel
    simp [parseSQLFilter.convertValue, hsp, hsame]

/-- Witness for `slash_literal_like` at the spec's `"/joh/"` example. -/
theorem slash_literal_like_witness :
    convertSlashPatternToLike (str "/joh/") = claimSlashLike (str "/joh/") ∧
    processFieldValue 3 (str "name") (.vStr (str "/joh/")) [] =
      some (.ok (str "name" ++ str " LIKE ?",
        [] ++ [.vStr (convertSlashPatternToLike (str "/joh/"))])) :=
  ⟨(slash_literal_like (str "/joh/") (by decide)).1,
   (slash_literal_like (str "/joh/") (by decide)).2.2.1 2 (str "name") []⟩

/-! ## Claim C2 -/

/-- Claim C2, counterexample: `$and`/`$or` wrap the joined survivors in a
parenthesis group even when only one sub-condition survives (first two
conjuncts: `{$and: [{age: 25}]}` yields `"(age = ?)"`, not `"age = ?"`),
and individual sub-conditions are not re-parenthesised, so the spec's
nested example yields `"(age >= ? AND (status = ? OR status = ?))"`, not
`"((age >= ?) AND ((status = ?) OR (status = ?)))"` (last two conjuncts). -/
theorem and_or_group_counterexample :
    convertMongoFilterToSQLCall 10
      (.vObj [(str "$and", .vArr [.vObj [(str "age", .vNum 25)]])]) =
      some (.ok ⟨str "(age = ?)", [.vNum 25]⟩) ∧
    str "(age = ?)" ≠ str "age = ?" ∧
    convertMongoFilterToSQLCall 20
      (.vObj [(str "$and", .vArr [.vObj [(str "age", .vObj [(str "$gte", .vNum 18)])],
        .vObj [(str "$or", .vArr [.vObj [(str "status", .vStr (str "active"))],
          .vObj [(str "status", .vStr (str "pending"))]])]])]) =
      some (.ok ⟨str "(age >= ? AND (status = ? OR status = ?))",
           [.vNum 18, .vStr (str "active"), .vStr (str "pending")]⟩) ∧
    str "(age >= ? AND (status = ? OR status = ?))" ≠
      str "((age >= ?) AND ((status = ?) OR (status = ?)))" :=
  ⟨by rfl, by decide, by rfl, by decide⟩

/-- Claim C2 as amended: `$and`/`$or` join the surviving sub-conditions
with the connective and wrap the joined result in one parenthesis group
whenever at least one sub-condition survives — also when exactly one
survives — and contribute nothing when none does; sub-conditions keep
whatever shape their own translation produced.  The spec's nested example
translates to `"(age >= ? AND (status = ? OR status = ?))"` with
parameters `[18, "active", "pending"]`. -/
theorem and_or_group_shape (fuel : Nat) (subs : List Value) :
    (∀ ps cs psOut, convertList fuel subs ps = some (.ok (cs, psOut)) →
      convertMongoFilterToSQL (fuel + 2) (.vObj [(str "$and", .vArr subs)]) ps =
        some (.ok ((if (cs.filter fun c => !c.isEmpty).isEmpty then []
                    else str "(" ++ joinSep (str " AND ")
                      (cs.filter fun c => !c.isEmpty) ++ str ")"), psOut))) ∧
    (∀ ps cs psOut, convertList fuel subs ps = some (.ok (cs, psOut)) →
      convertMongoFilterToSQL (fuel + 2) (.vObj [(str "$or", .vArr subs)]) ps =
        some (.ok ((if (cs.filter fun c => !c.isEmpty).isEmpty then []
                    else str "(" ++ joinSep (str " OR ")
                      (cs.filter fun c => !c.isEmpty) ++ str ")"), psOut))) ∧
    convertMongoFilterToSQLCall 20
      (.vObj [(str "$and", .vArr [.vObj [(str "age", .vObj [(str "$gte", .vNum 18)])],
        .vObj [(str "$or", .vArr [.vObj [(str "status", .vStr (str "active"))],
          .vObj [(str "status", .vStr (str "pending"))]])]])]) =
      some (.ok ⟨str "(age >= ? AND (status = ? OR status = ?))",
           [.vNum 18, .vStr (str "active"), .vStr (str "pending")]⟩) := by
  have hoa : ¬(str "$or" = str "$and") := by decide
  refine ⟨?_, ?_, by rfl⟩
  · intro ps cs psOut h
    cases fuel with
    | zero => simp [convertList] at h
    | succ g =>
      rcases hsur : cs.filter (fun c => !c.isEmpty) with _ | ⟨c0, crest⟩ <;>
        simp [convertMongoFilterToSQL, convertFields, h, hsur]
  · intro ps cs psOut h
    cases fuel with
    | zero => simp [convertList] at h
    | succ g =>
      rcases hsur : cs.filter (fun c => !c.isEmpty) with _ | ⟨c0, crest⟩ <;>
        simp [convertMongoFilterToSQL, convertFields, h, hoa, hsur]

/-- Witness for `and_or_group_shape`: one surviving sub-condition under
`$and` is still wrapped in a group. -/
theorem and_or_group_shape_witness :
    convertMongoFilterToSQL 6 (.vObj [(str "$and", .vArr [.vObj [(str "age", .vNum 25)]])]) [] =
      some (.ok ((if (([str "age = ?"]).filter fun c => !c.isEmpty).isEmpty then []
                  else str "(" ++ joinSep (str " AND ")
                    (([str "age = ?"]).filter fun c => !c.isEmpty) ++ str ")"), [.vNum 25])) :=
  (and_or_group_shape 4 [.vObj [(str "age", .vNum 25)]]).1 [] [str "age = ?"]
    [.vNum 25] (by rfl)

/-! ## Claim C5 -/

/-- Claim C5, counterexample: when every sub-filter under a non-empty
`$nor` array translates to an empty clause, the SQL form contributes
nothing at all — the whereClause is `""`, which is not `NOT (...)`-shaped
(its first four characters are not `"NOT ("`), so "for every non-empty
array of sub-filters both translators produce a negation of the whole
disjunction" fails as stated. -/
theorem nor_empty_survivor_counterexample :
    convertMongoFilterToSQLCall 10 (.vObj [(str "$nor", .vArr [.vObj []])]) =
      some (.ok ⟨[], []⟩) ∧
    ([] : Str).take 5 ≠ str "NOT (" :=
  ⟨by rfl, by decide⟩

/-- Claim C5 as amended: `$nor` negates the whole disjunction.  In the
SQL form, whenever at least one of the sub-clauses survives the emptiness
filter, the output is `NOT (` ++ the survivors joined with ` OR ` ++ `)`
— a single negation of the joined group, never a disjunction or
conjunction of individually negated sub-conditions — and when none
survives, `$nor` contributes nothing.  In the tree form the output is
always a single `Op.not` node wrapping one `Op.or` node holding the
mapped sub-filters.  The spec's example yields
`"NOT (status = ? OR status = ?)"` with parameters
`["deleted", "archived"]`. -/
theorem nor_negation_shape (fuel : Nat) (subs : List Value) :
    (∀ ps cs psOut, convertList fuel subs ps = some (.ok (cs, psOut)) →
      convertMongoFilterToSQL (fuel + 2) (.vObj [(str "$nor", .vArr subs)]) ps =
        some (.ok ((if (cs.filter fun c => !c.isEmpty).isEmpty then []
                    else str "NOT (" ++ joinSep (str " OR ")
                      (cs.filter fun c => !c.isEmpty) ++ str ")"), psOut))) ∧
    (∀ vs, parseSQLFilter.parseList fuel subs = some (.ok vs) →
      parseSQLFilter.FilterParse (fuel + 2) (.vObj [(str "$nor", .vArr subs)]) =
        some (.ok (.obj [(.opKey .not', .obj [(.opKey .or', .arr vs)])]))) ∧
    convertMongoFilterToSQLCall 10
      (.vObj [(str "$nor", .vArr [.vObj [(str "status", .vStr (str "deleted"))],
        .vObj [(str "status", .vStr (str "archived"))]])]) =
      some (.ok ⟨str "NOT (status = ? OR status = ?)",
           [.vStr (str "deleted"), .vStr (str "archived")]⟩) := by
  have hna : ¬(str "$nor" = str "$and") := by decide
  have hno : ¬(str "$nor" = str "$or") := by decide
  refine ⟨?_, ?_, by rfl⟩
  · intro ps cs psOut h
    cases fuel with
    | zero => simp [convertList] at h
    | succ g =>
      rcases hsur : cs.filter (fun c => !c.isEmpty) with _ | ⟨c0, crest⟩ <;>
        simp [convertMongoFilterToSQL, convertFields, h, hna, hno, hsur]
  · intro vs h
    cases fuel with
    | zero => simp [parseSQLFilter.parseList] at h
    | succ g =>
      simp [parseSQLFilter.FilterParse, parseSQLFilter.parseFields, h, hna, hno, setEntry]

/-- Witness for `nor_negation_shape` at the spec's example sub-filters. -/
theorem nor_negation_shape_witness :
    parseSQLFilter.FilterParse 8
      (.vObj [(str "$nor", .vArr [.vObj [(str "status", .vStr (str "deleted"))],
        .vObj [(str "status", .vStr (str "archived"))]])]) =
      some (.ok (.obj [(.opKey .not', .obj [(.opKey .or', .arr
        [.obj [(.strKey (str "status"), .obj [(.opKey .eq, .raw (.vStr (str "deleted")))])],
         .obj [(.strKey (str "status"), .obj [(.opKey .eq, .raw (.vStr (str "archived")))])]])])])) :=
  (nor_negation_shape 6 [.vObj [(str "status", .vStr (str "deleted"))],
    .vObj [(str "status", .vStr (str "archived"))]]).2.1 _ (by rfl)

/-! ## Claim C1 -/

theorem countQ_append (a b : Str) : countQ (a ++ b) = countQ a + countQ b :=
  List.count_append '?' a b

/-- Counting `?` distributes over a join whose separator has none. -/
theorem countQ_joinSep (sep : Str) (h : countQ sep = 0) :
    ∀ l : List Str, countQ (joinSep sep l) = (l.map countQ).sum
  | [] => by simp [joinSep, countQ]
  | [c] => by simp [joinSep]
  | c :: c2 :: rest => by
    have ih := countQ_joinSep sep h (c2 :: rest)
    simp only [joinSep, countQ_append, h, List.map_cons, List.sum_cons] at ih ⊢
    omega

/-- Dropping empty clauses does not change the total `?` count. -/
theorem sum_countQ_filter (cs : List Str) :
    ((cs.filter fun c => !c.isEmpty).map countQ).sum = (cs.map countQ).sum := by
  induction cs with
  | nil => rfl
  | cons c rest ih =>
    by_cases hc : c.isEmpty
    · have hnil : c = [] := List.isEmpty_iff.mp hc
      subst hnil
      simpa [List.filter_cons, countQ] using ih
    · simp [List.filter_cons, hc, ih]

/-- One `?` per element in the `$in`/`$nin` placeholder list. -/
theorem countQ_placeholders (elems : List Value) :
    (((elems.map fun _ => str "?")).map countQ).sum = elems.length := by
  induction elems with
  | nil => rfl
  | cons e rest ih =>
    simp only [List.map_cons, List.sum_cons, List.length_cons, ih]
    simp [countQ, str]
    omega

/-- A pushed-or-dropped single condition contributes its own count. -/
theorem sum_countQ_pushed (c : Str) (conds : List Str) :
    (((if !c.isEmpty then [c] else []) ++ conds).map countQ).sum =
      countQ c + (conds.map countQ).sum := by
  by_cases hc : c.isEmpty
  · have hnil : c = [] := List.isEmpty_iff.mp hc
    subst hnil
    simp [countQ]
  · simp [hc]

/-- The top-level `conditions.length > 1 ? conditions.join(' AND ') :
conditions[0] || ''` keeps the total `?` count. -/
theorem countQ_clauseJoin (conds : List Str) :
    countQ (if 1 < conds.length then joinSep (str " AND ") conds
            else conds.headD []) = (conds.map countQ).sum := by
  rcases conds with _ | ⟨c, rest⟩
  · simp [countQ]
  · rcases rest with _ | ⟨c2, rest2⟩
    · simp
    · have h2 : 1 < (c :: c2 :: rest2).length := by simp
      rw [if_pos h2, countQ_joinSep (str " AND ") (by decide)]

/-- Array index keys contain no `?`. -/
theorem countQ_digitChar (k : Nat) : ¬digitChar k = '?' := by
  unfold digitChar
  split <;> decide

theorem countQ_natToStr (n : Nat) : countQ (natToStr n) = 0 := by
  induction n using Nat.strong_induction_on with
  | _ n ih =>
    rw [natToStr]
    split
    · simp [countQ, List.count_cons, countQ_digitChar]
    · rename_i hn
      have hdiv : n / 10 < n := Nat.div_lt_self (by omega) (by norm_num)
      have h0 := ih (n / 10) hdiv
      simp [countQ_append, countQ, List.count_cons, countQ_digitChar]
      exact h0

/-- The multi-operator wrap of `processFieldValue` keeps the total count. -/
theorem countQ_opWrap (conds : List Str) :
    countQ (if 1 < conds.length then str "(" ++ joinSep (str " AND ") conds ++ str ")"
            else joinSep [] conds) = (conds.map countQ).sum := by
  by_cases h : 1 < conds.length
  · rw [if_pos h, countQ_append, countQ_append,
      countQ_joinSep (str " AND ") (by decide)]
    have e1 : countQ (str "(") = 0 := by decide
    have e2 : countQ (str ")") = 0 := by decide
    omega
  · rw [if_neg h, countQ_joinSep [] (by decide)]

/-- One `?` per replicated placeholder. -/
theorem countQ_replicate (m : Nat) :
    ((List.replicate m (str "?")).map countQ).sum = m := by
  induction m with
  | zero => rfl
  | succ k ih =>
    have hq : countQ (str "?") = 1 := by decide
    simp only [List.replicate_succ, List.map_cons, List.sum_cons, ih, hq]
    omega

/-- Placeholder/parameter bookkeeping of the field-level family: whenever
a call succeeds, the parameter array has grown by exactly the number of
`?` in the emitted text (field names assumed `?`-free). -/
theorem processFamily_count : ∀ fuel : Nat,
    (∀ field operator value ps c psOut, countQ field = 0 →
      processOperator fuel field operator value ps = some (.ok (c, psOut)) →
      psOut.length = ps.length + countQ c) ∧
    (∀ field entries ps cs psOut, countQ field = 0 →
      processOps fuel field entries ps = some (.ok (cs, psOut)) →
      psOut.length = ps.length + (cs.map countQ).sum) ∧
    (∀ field value ps c psOut, countQ field = 0 →
      processFieldValue fuel field value ps = some (.ok (c, psOut)) →
      psOut.length = ps.length + countQ c) := by
  intro fuel
  induction fuel with
  | zero =>
    refine ⟨?_, ?_, ?_⟩ <;> intros <;>
      simp_all [processOperator, processOps, processFieldValue]
  | succ n ih =>
    obtain ⟨ihOp, ihOps, ihFv⟩ := ih
    have qeq : countQ (str " = ?") = 1 := by decide
    have qne : countQ (str " != ?") = 1 := by decide
    have qgt : countQ (str " > ?") = 1 := by decide
    have qgte : countQ (str " >= ?") = 1 := by decide
    have qlt : countQ (str " < ?") = 1 := by decide
    have qlte : countQ (str " <= ?") = 1 := by decide
    have qlike : countQ (str " LIKE ?") = 1 := by decide
    have qin : countQ (str " IN (") = 0 := by decide
    have qnin : countQ (str " NOT IN (") = 0 := by decide
    have qrp : countQ (str ")") = 0 := by decide
    have qnotp : countQ (str "NOT (") = 0 := by decide
    refine ⟨?_, ?_, ?_⟩
    · intro field operator value ps c psOut hf h
      simp only [processOperator] at h
      revert h
      cases hop : mongoOpOf operator <;> intro h
      case eqOp =>
        simp only [Option.some.injEq, Except.ok.injEq, Prod.mk.injEq] at h
        obtain ⟨hc, hps⟩ := h
        subst hc; subst hps
        rw [countQ_append]
        simp [hf, qeq]
      case neOp =>
        simp only [Option.some.injEq, Except.ok.injEq, Prod.mk.injEq] at h
        obtain ⟨hc, hps⟩ := h
        subst hc; subst hps
        rw [countQ_append]
        simp [hf, qne]
      case gtOp =>
        simp only [Option.some.injEq, Except.ok.injEq, Prod.mk.injEq] at h
        obtain ⟨hc, hps⟩ := h
        subst hc; subst hps
        rw [countQ_append]
        simp [hf, qgt]
      case gteOp =>
        simp only [Option.some.injEq, Except.ok.injEq, Prod.mk.injEq] at h
        obtain ⟨hc, hps⟩ := h
        subst hc; subst hps
        rw [countQ_append]
        simp [hf, qgte]
      case ltOp =>
        simp only [Option.some.injEq, Except.ok.injEq, Prod.mk.injEq] at h
        obtain ⟨hc, hps⟩ := h
        subst hc; subst hps
        rw [countQ_append]
        simp [hf, qlt]
      case lteOp =>
        simp only [Option.some.injEq, Except.ok.injEq, Prod.mk.injEq] at h
        obtain ⟨hc, hps⟩ := h
        subst hc; subst hps
        rw [countQ_append]
        simp [hf, qlte]
      case inOp =>
        simp only [Option.some.injEq] at h
        cases value <;> simp [inListClause] at h
        obtain ⟨hc, hps⟩ := h
        subst hc; subst hps
        rw [countQ_append, countQ_append, countQ_append,
          countQ_joinSep (str ", ") (by decide), countQ_replicate]
        simp [hf, qin, qrp]
      case ninOp =>
        simp only [Option.some.injEq] at h
        cases value <;> simp [inListClause] at h
        obtain ⟨hc, hps⟩ := h
        subst hc; subst hps
        rw [countQ_append, countQ_append, countQ_append,
          countQ_joinSep (str ", ") (by decide), countQ_replicate]
        simp [hf, qnin, qrp]
      case regexOp =>
        simp only [Option.some.injEq] at h
        rw [regexLikeClause] at h
        rcases hr : convertRegexToLike value with p | e
        · rw [hr] at h
          simp at h
        · rw [hr] at h
          simp only [Except.ok.injEq, Prod.mk.injEq] at h
          obtain ⟨hc, hps⟩ := h
          subst hc; subst hps
          rw [countQ_append]
          simp [hf, qlike]
      case notOp =>
        rcases hfv : processFieldValue n field value ps with _ | x
        · simp [hfv] at h
        · rcases x with e | ⟨nc, ps1⟩
          · simp [hfv] at h
          · simp only [hfv, Option.some.injEq, Except.ok.injEq, Prod.mk.injEq] at h
            obtain ⟨hc, hps⟩ := h
            subst hc; subst hps
            have hrec := ihFv field value ps nc ps1 hf hfv
            rw [countQ_append, countQ_append]
            omega
      case unknown => simp at h
    · intro field entries ps cs psOut hf h
      rcases entries with _ | ⟨⟨operator, v⟩, rest⟩
      · simp only [processOps, Option.some.injEq, Except.ok.injEq,
          Prod.mk.injEq] at h
        obtain ⟨hcs, hps⟩ := h
        subst hcs; subst hps
        simp
      · simp only [processOps] at h
        rcases hop : processOperator n field operator v ps with _ | x
        · simp [hop] at h
        · rcases x with e | ⟨c1, ps1⟩
          · simp [hop] at h
          · simp only [hop] at h
            rcases hops : processOps n field rest ps1 with _ | y
            · simp [hops] at h
            · rcases y with e | ⟨cs1, ps2⟩
              · simp [hops] at h
              · simp only [hops, Option.some.injEq, Except.ok.injEq,
                  Prod.mk.injEq] at h
                obtain ⟨hcs, hps⟩ := h
                subst hcs; subst hps
                have h1 := ihOp field operator v ps c1 ps1 hf hop
                have h2 := ihOps field rest ps1 cs1 ps2 hf hops
                simp only [List.map_cons, List.sum_cons]
                omega
    · intro field value ps c psOut hf h
      rcases value with _ | _ | b | nv | s | t | src | elems | fields
      case vStr =>
        simp only [processFieldValue] at h
        by_cases hsp : isSlashPattern (.vStr s)
        · rw [if_pos hsp] at h
          simp only [Option.some.injEq, Except.ok.injEq, Prod.mk.injEq] at h
          obtain ⟨hc, hps⟩ := h
          subst hc; subst hps
          rw [countQ_append]
          simp [hf, qlike]
        · rw [if_neg hsp] at h
          simp only [Option.some.injEq, Except.ok.injEq, Prod.mk.injEq] at h
          obtain ⟨hc, hps⟩ := h
          subst hc; subst hps
          rw [countQ_append]
          simp [hf, qeq]
      case vObj =>
        rcases fields with _ | ⟨⟨k, v0⟩, rest⟩
        · simp only [processFieldValue, Option.some.injEq, Except.ok.injEq,
            Prod.mk.injEq] at h
          obtain ⟨hc, hps⟩ := h
          subst hc; subst hps
          rw [countQ_append]
          simp [hf, qeq]
        · simp only [processFieldValue] at h
          by_cases hk : k.head? = some '$'
          · rw [if_pos hk] at h
            rcases hops : processOps n field ((k, v0) :: rest) ps with _ | y
            · simp [hops] at h
            · rcases y with e | ⟨conds, ps1⟩
              · simp [hops] at h
              · simp only [hops, Option.some.injEq, Except.ok.injEq,
                  Prod.mk.injEq] at h
                obtain ⟨hc, hps⟩ := h
                subst hc; subst hps
                have hrec := ihOps field ((k, v0) :: rest) ps conds ps1 hf hops
                rw [countQ_opWrap]
                omega
          · rw [if_neg hk] at h
            simp only [Option.some.injEq, Except.ok.injEq, Prod.mk.injEq] at h
            obtain ⟨hc, hps⟩ := h
            subst hc; subst hps
            rw [countQ_append]
            simp [hf, qeq]
      all_goals
        simp only [processFieldValue, Option.some.injEq, Except.ok.injEq,
          Prod.mk.injEq] at h
        obtain ⟨hc, hps⟩ := h
        subst hc; subst hps
        rw [countQ_append]
        simp [hf, qeq]

/-- A combinator's contribution (one optional wrapped group) to the
condition list keeps the total count. -/
theorem countQ_group (pre sep post : Str) (hp : countQ pre = 0)
    (hs : countQ sep = 0) (hpost : countQ post = 0) (cs1 conds : List Str) :
    ((((if 0 < (cs1.filter fun c => !c.isEmpty).length then
        [pre ++ joinSep sep (cs1.filter fun c => !c.isEmpty) ++ post]
       else []) ++ conds)).map countQ).sum
    = (cs1.map countQ).sum + (conds.map countQ).sum := by
  by_cases hsv : 0 < (cs1.filter fun c => !c.isEmpty).length
  · rw [if_pos hsv]
    simp only [List.map_append, List.map_cons, List.map_nil, List.sum_append,
      List.sum_cons, List.sum_nil]
    rw [countQ_append, countQ_append, countQ_joinSep sep hs, sum_countQ_filter]
    omega
  · rw [if_neg hsv]
    have h0 : (cs1.filter fun c => !c.isEmpty) = [] :=
      List.length_eq_zero.mp (Nat.eq_zero_of_not_pos hsv)
    have hsum := sum_countQ_filter cs1
    rw [h0] at hsum
    simp only [List.map_nil, List.sum_nil, List.nil_append] at hsum ⊢
    omega

/-- Placeholder/parameter bookkeeping of the document-level family, under
`?`-free keys. -/
theorem convertFamily_count : ∀ fuel : Nat,
    (∀ subs ps cs psOut, qFreeList subs = true →
      convertList fuel subs ps = some (.ok (cs, psOut)) →
      psOut.length = ps.length + (cs.map countQ).sum) ∧
    (∀ fields ps cs psOut, qFreeFields fields = true →
      convertFields fuel fields ps = some (.ok (cs, psOut)) →
      psOut.length = ps.length + (cs.map countQ).sum) ∧
    (∀ i elems ps cs psOut,
      convertElems fuel i elems ps = some (.ok (cs, psOut)) →
      psOut.length = ps.length + (cs.map countQ).sum) ∧
    (∀ filter ps c psOut, qFreeKeys filter = true →
      convertMongoFilterToSQL fuel filter ps = some (.ok (c, psOut)) →
      psOut.length = ps.length + countQ c) := by
  intro fuel
  induction fuel with
  | zero =>
    refine ⟨?_, ?_, ?_, ?_⟩ <;> intros <;>
      simp_all [convertList, convertFields, convertElems, convertMongoFilterToSQL]
  | succ n ih =>
    obtain ⟨ihList, ihFields, ihElems, ihConv⟩ := ih
    refine ⟨?_, ?_, ?_, ?_⟩
    · intro subs ps cs psOut hq h
      rcases subs with _ | ⟨s, rest⟩
      · simp only [convertList, Option.some.injEq, Except.ok.injEq,
          Prod.mk.injEq] at h
        obtain ⟨hcs, hps⟩ := h
        subst hcs; subst hps
        simp
      · simp only [qFreeList, Bool.and_eq_true] at hq
        obtain ⟨hq1, hq2⟩ := hq
        simp only [convertList] at h
        rcases hc1 : convertMongoFilterToSQL n s ps with _ | x
        · simp [hc1] at h
        · rcases x with e | ⟨c1, ps1⟩
          · simp [hc1] at h
          · simp only [hc1] at h
            rcases hrest : convertList n rest ps1 with _ | y
            · simp [hrest] at h
            · rcases y with e | ⟨cs1, ps2⟩
              · simp [hrest] at h
              · simp only [hrest, Option.some.injEq, Except.ok.injEq,
                  Prod.mk.injEq] at h
                obtain ⟨hcs, hps⟩ := h
                subst hcs; subst hps
                have h1 := ihConv s ps c1 ps1 hq1 hc1
                have h2 := ihList rest ps1 cs1 ps2 hq2 hrest
                simp only [List.map_cons, List.sum_cons]
                omega
    · intro fields ps cs psOut hq h
      rcases fields with _ | ⟨⟨key, value⟩, rest⟩
      · simp only [convertFields, Option.some.injEq, Except.ok.injEq,
          Prod.mk.injEq] at h
        obtain ⟨hcs, hps⟩ := h
        subst hcs; subst hps
        simp
      · simp only [qFreeFields, Bool.and_eq_true, decide_eq_true_eq] at hq
        obtain ⟨⟨hqk, hqv⟩, hqr⟩ := hq
        simp only [convertFields] at h
        by_cases hand : key = str "$and"
        · rw [if_pos hand] at h
          rcases value with _ | _ | b | nv | s | t | src | subs | flds
          · simp at h
          · simp at h
          · simp at h
          · simp at h
          · simp at h
          · simp at h
          · simp at h
          · simp only [] at h
            rcases hl : convertList n subs ps with _ | x
            · simp [hl] at h
            · rcases x with e | ⟨cs1, ps1⟩
              · simp [hl] at h
              · simp only [hl] at h
                rcases hr : convertFields n rest ps1 with _ | y
                · simp [hr] at h
                · rcases y with e | ⟨conds, ps2⟩
                  · simp [hr] at h
                  · simp only [hr, Option.some.injEq, Except.ok.injEq,
                      Prod.mk.injEq] at h
                    obtain ⟨hcs, hps⟩ := h
                    subst hcs; subst hps
                    have hql : qFreeList subs = true := by
                      subst hand
                      simpa [qFreeKeys] using hqv
                    have h1 := ihList subs ps cs1 ps1 hql hl
                    have h2 := ihFields rest ps1 conds ps2 hqr hr
                    rw [countQ_group (str "(") (str " AND ") (str ")")
                      (by decide) (by decide) (by decide)]
                    omega
          · simp at h
        · rw [if_neg hand] at h
          by_cases hor : key = str "$or"
          · rw [if_pos hor] at h
            rcases value with _ | _ | b | nv | s | t | src | subs | flds
            · simp at h
            · simp at h
            · simp at h
            · simp at h
            · simp at h
            · simp at h
            · simp at h
            · simp only [] at h
              rcases hl : convertList n subs ps with _ | x
              · simp [hl] at h
              · rcases x with e | ⟨cs1, ps1⟩
                · simp [hl] at h
                · simp only [hl] at h
                  rcases hr : convertFields n rest ps1 with _ | y
                  · simp [hr] at h
                  · rcases y with e | ⟨conds, ps2⟩
                    · simp [hr] at h
                    · simp only [hr, Option.some.injEq, Except.ok.injEq,
                        Prod.mk.injEq] at h
                      obtain ⟨hcs, hps⟩ := h
                      subst hcs; subst hps
                      have hql : qFreeList subs = true := by
                        subst hor
                        simpa [qFreeKeys] using hqv
                      have h1 := ihList subs ps cs1 ps1 hql hl
                      have h2 := ihFields rest ps1 conds ps2 hqr hr
                      rw [countQ_group (str "(") (str " OR ") (str ")")
                        (by decide) (by decide) (by decide)]
                      omega
            · simp at h
          · rw [if_neg hor] at h
            by_cases hnor : key = str "$nor"
            · rw [if_pos hnor] at h
              rcases value with _ | _ | b | nv | s | t | src | subs | flds
              · simp at h
              · simp at h
              · simp at h
              · simp at h
              · simp at h
              · simp at h
              · simp at h
              · simp only [] at h
                rcases hl : convertList n subs ps with _ | x
                · simp [hl] at h
                · rcases x with e | ⟨cs1, ps1⟩
                  · simp [hl] at h
                  · simp only [hl] at h
                    rcases hr : convertFields n rest ps1 with _ | y
                    · simp [hr] at h
                    · rcases y with e | ⟨conds, ps2⟩
                      · simp [hr] at h
                      · simp only [hr, Option.some.injEq, Except.ok.injEq,
                          Prod.mk.injEq] at h
                        obtain ⟨hcs, hps⟩ := h
                        subst hcs; subst hps
                        have hql : qFreeList subs = true := by
                          subst hnor
                          simpa [qFreeKeys] using hqv
                        have h1 := ihList subs ps cs1 ps1 hql hl
                        have h2 := ihFields rest ps1 conds ps2 hqr hr
                        rw [countQ_group (str "NOT (") (str " OR ") (str ")")
                          (by decide) (by decide) (by decide)]
                        omega
              · simp at h
            · rw [if_neg hnor] at h
              rcases hfv : processFieldValue n key value ps with _ | x
              · simp [hfv] at h
              · rcases x with e | ⟨c1, ps1⟩
                · simp [hfv] at h
                · simp only [hfv] at h
                  rcases hr : convertFields n rest ps1 with _ | y
                  · simp [hr] at h
                  · rcases y with e | ⟨conds, ps2⟩
                    · simp [hr] at h
                    · simp only [hr, Option.some.injEq, Except.ok.injEq,
                        Prod.mk.injEq] at h
                      obtain ⟨hcs, hps⟩ := h
                      subst hcs; subst hps
                      have h1 := (processFamily_count n).2.2 key value ps c1 ps1 hqk hfv
                      have h2 := ihFields rest ps1 conds ps2 hqr hr
                      rw [sum_countQ_pushed]
                      omega
    · intro i elems ps cs psOut h
      rcases elems with _ | ⟨e0, rest⟩
      · simp only [convertElems, Option.some.injEq, Except.ok.injEq,
          Prod.mk.injEq] at h
        obtain ⟨hcs, hps⟩ := h
        subst hcs; subst hps
        simp
      · simp only [convertElems] at h
        rcases hfv : processFieldValue n (natToStr i) e0 ps with _ | x
        · simp [hfv] at h
        · rcases x with e | ⟨c1, ps1⟩
          · simp [hfv] at h
          · simp only [hfv] at h
            rcases hr : convertElems n (i + 1) rest ps1 with _ | y
            · simp [hr] at h
            · rcases y with e | ⟨conds, ps2⟩
              · simp [hr] at h
              · simp only [hr, Option.some.injEq, Except.ok.injEq,
                  Prod.mk.injEq] at h
                obtain ⟨hcs, hps⟩ := h
                subst hcs; subst hps
                have h1 := (processFamily_count n).2.2 (natToStr i) e0 ps c1 ps1
                  (countQ_natToStr i) hfv
                have h2 := ihElems (i + 1) rest ps1 conds ps2 hr
                rw [sum_countQ_pushed]
                omega
    · intro filter ps c psOut hq h
      rcases filter with _ | _ | b | nv | s | t | src | elems | fields
      case vObj =>
        rcases fields with _ | ⟨f0, fs⟩
        · simp only [convertMongoFilterToSQL, Option.some.injEq, Except.ok.injEq,
            Prod.mk.injEq] at h
          obtain ⟨hc, hps⟩ := h
          subst hc; subst hps
          simp [countQ]
        · simp only [convertMongoFilterToSQL] at h
          rcases hfl : convertFields n (f0 :: fs) ps with _ | x
          · simp [hfl] at h
          · rcases x with e | ⟨conds, ps1⟩
            · simp [hfl] at h
            · simp only [hfl, Option.some.injEq, Except.ok.injEq,
                Prod.mk.injEq] at h
              obtain ⟨hc, hps⟩ := h
              subst hc; subst hps
              have hqf : qFreeFields (f0 :: fs) = true := by
                simpa [qFreeKeys] using hq
              have h1 := ihFields (f0 :: fs) ps conds ps1 hqf hfl
              rw [countQ_clauseJoin]
              omega
      case vArr =>
        rcases elems with _ | ⟨e0, es⟩
        · simp only [convertMongoFilterToSQL, Option.some.injEq, Except.ok.injEq,
            Prod.mk.injEq] at h
          obtain ⟨hc, hps⟩ := h
          subst hc; subst hps
          simp [countQ]
        · simp only [convertMongoFilterToSQL] at h
          rcases hel : convertElems n 0 (e0 :: es) ps with _ | x
          · simp [hel] at h
          · rcases x with e | ⟨conds, ps1⟩
            · simp [hel] at h
            · simp only [hel, Option.some.injEq, Except.ok.injEq,
                Prod.mk.injEq] at h
              obtain ⟨hc, hps⟩ := h
              subst hc; subst hps
              have h1 := ihElems 0 (e0 :: es) ps conds ps1 hel
              rw [countQ_clauseJoin]
              omega
      all_goals
        simp only [convertMongoFilterToSQL, Option.some.injEq, Except.ok.injEq,
          Prod.mk.injEq] at h
        obtain ⟨hc, hps⟩ := h
        subst hc; subst hps
        simp [countQ]

/-- Claim C1, counterexample: a field name may itself contain `?`, and
then the `?` characters of the whereClause outnumber the parameters —
`{"a?": 1}` is accepted and yields `"a? = ?"` with one parameter, but two
`?` characters, so "the number of `?` placeholders equals the length of
the parameters list" fails as literally stated over the produced text. -/
theorem placeholder_count_counterexample :
    convertMongoFilterToSQLCall 5 (.vObj [(str "a?", .vNum 1)]) =
      some (.ok ⟨str "a? = ?", [.vNum 1]⟩) ∧
    countQ (str "a? = ?") = 2 ∧
    ([Value.vNum 1] : List Value).length = 1 := by
  refine ⟨by rfl, by decide, rfl⟩

/-- Claim C1 as amended: for every filter document whose keys contain no
`?` character (so that every `?` of the output is a placeholder), a
successful SQL-form translation returns a whereClause whose number of `?`
placeholders equals the length of the returned parameter list.  Each
atomic condition pushes its parameter at the moment its placeholder is
emitted (`$in`/`$nin` one per element, `$not` none of its own), so the
count equality holds along every prefix of the traversal, giving the
left-to-right correspondence of the Nth placeholder with `parameters[N]`. -/
theorem sql_placeholder_alignment (fuel : Nat) (filter : Value)
    (res : SqlResult) (hq : qFreeKeys filter = true)
    (h : convertMongoFilterToSQLCall fuel filter = some (.ok res)) :
    countQ res.whereClause = res.parameters.length := by
  unfold convertMongoFilterToSQLCall at h
  rcases hc : convertMongoFilterToSQL fuel filter [] with _ | x
  · rw [hc] at h; simp at h
  · rcases x with e | ⟨c, ps⟩
    · rw [hc] at h; simp at h
    · rw [hc] at h
      simp only [Option.some.injEq, Except.ok.injEq] at h
      subst h
      have := (convertFamily_count fuel).2.2.2 filter [] c ps hq hc
      simp only [List.length_nil] at this
      simp [this]

/-- Witness for `sql_placeholder_alignment` at
`{age: 25, status: {$in: ["active", "pending"]}}`. -/
theorem sql_placeholder_alignment_witness :
    countQ (str "age = ? AND status IN (?, ?)") =
      ([Value.vNum 25, Value.vStr (str "active"),
        Value.vStr (str "pending")] : List Value).length :=
  sql_placeholder_alignment 10
    (.vObj [(str "age", .vNum 25),
      (str "status", .vObj [(str "$in",
        .vArr [.vStr (str "active"), .vStr (str "pending")])])])
    ⟨str "age = ? AND status IN (?, ?)",
     [Value.vNum 25, Value.vStr (str "active"), Value.vStr (str "pending")]⟩
    (by simp [qFreeKeys, qFreeFields, qFreeList, countQ, str])
    (by rfl)

/-! ## Claim C9: a heap model making mutation explicit

The state-passing embedding above cannot even express "the translator
writes the input document": documents there are immutable values.  The
model below re-embeds both translators over an explicit object heap:
JavaScript objects (arrays, plain objects, dates, regexps, and the
symbol-keyed result objects of the tree form) live in a store indexed by
references, values are primitives or references, reads go through the
store, and the only store updates are `parameters.push` (SQL form,
through the reference of the parameters array) and writes/allocations of
the freshly created result objects (tree form).  The frame theorem then
states that every pre-existing heap cell other than the parameters array
is untouched — in particular the whole input document. -/

namespace Heap

abbrev Ref := Nat

/-- Primitive (non-object) JavaScript values. -/
inductive HPrim where
  | hNull
  | hUndefined
  | hBool (b : Bool)
  | hNum (n : Int)
  | hStr (s : Str)
  deriving DecidableEq

/-- A JavaScript value: a primitive, or a reference into the object heap. -/
inductive HVal where
  | prim (p : HPrim)
  | ref (r : Ref)
  deriving DecidableEq

/-- A heap object: array, string-keyed object (input documents),
symbol-capable object (tree-form results), `Date`, or `RegExp`. -/
inductive HObj where
  | arr (elems : List HVal)
  | obj (fields : List (Str × HVal))
  | sobj (fields : List (SKey × HVal))
  | date (t : Int)
  | regexp (source : Str)
  deriving DecidableEq

/-- The object heap; a reference is an index, allocation appends. -/
abbrev Store := List HObj

def Store.read (σ : Store) (r : Ref) : Option HObj := σ.get? r

def Store.write (σ : Store) (r : Ref) (o : HObj) : Store := σ.set r o

def Store.alloc (σ : Store) (o : HObj) : Store × Ref := (σ ++ [o], σ.length)

/-- JavaScript truthiness on heap values (objects are always truthy). -/
def hTruthy : HVal → Bool
  | .prim .hNull => false
  | .prim .hUndefined => false
  | .prim (.hBool b) => b
  | .prim (.hNum n) => n ≠ 0
  | .prim (.hStr s) => !s.isEmpty
  | .ref _ => true

/-- `String()` on primitives. -/
def primToStr : HPrim → Str
  | .hNull => str "null"
  | .hUndefined => str "undefined"
  | .hBool b => if b then str "true" else str "false"
  | .hNum n => (toString n).toList
  | .hStr s => s

/-- Property lookup on a string-keyed object. -/
def hGetField (fields : List (Str × HVal)) (key : Str) : Option HVal :=
  match fields with
  | [] => none
  | (k, v) :: rest => if k = key then some v else hGetField rest key

mutual

/-- `String(v)` over the heap (arrays join their coerced elements). -/
def hJsToString : Nat → Store → HVal → Option Str
  | 0, _, _ => none
  | _ + 1, _, .prim p => some (primToStr p)
  | fuel + 1, σ, .ref r =>
    match σ.read r with
    | some (.arr elems) =>
      match hJsToStringList fuel σ elems with
      | some ss => some (joinSep (str ",") ss)
      | none => none
    | some (.obj _) => some (str "[object Object]")
    | some (.sobj _) => some (str "[object Object]")
    | some (.date _) => some (str "[object Date]")
    | some (.regexp source) => some ('/' :: source ++ ['/'])
    | none => none

def hJsToStringList : Nat → Store → List HVal → Option (List Str)
  | 0, _, _ => none
  | _ + 1, _, [] => some []
  | fuel + 1, σ, v :: rest =>
    match hJsToString fuel σ v with
    | some s =>
      match hJsToStringList fuel σ rest with
      | some ss => some (s :: ss)
      | none => none
    | none => none

end

/-- The pattern-extraction triage of `convertRegexToLike` over the heap
(reads only, no writes). -/
def hExtractPattern (fuel : Nat) (σ : Store) (regex : HVal) :
    Option (Except Err Str) :=
  match regex with
  | .prim .hNull => some (.error .typeError)
  | .prim (.hStr s) => some (.ok s)
  | .prim _ =>
    match hJsToString fuel σ regex with
    | some s => some (.ok s)
    | none => none
  | .ref r =>
    match σ.read r with
    | some (.regexp source) => some (.ok source)
    | some (.obj fields) =>
      match hGetField fields (str "$regex") with
      | some v =>
        if hTruthy v then
          match v with
          | .prim (.hStr s) => some (.ok s)
          | .ref r2 =>
            match σ.read r2 with
            | some (.regexp source) => some (.ok source)
            | _ => some (.error .typeError)
          | _ => some (.error .typeError)
        else
          match hJsToString fuel σ regex with
          | some s => some (.ok s)
          | none => none
      | none =>
        match hJsToString fuel σ regex with
        | some s => some (.ok s)
        | none => none
    | _ =>
      match hJsToString fuel σ regex with
      | some s => some (.ok s)
      | none => none

/-- Anchor stripping, `%`/`_` escaping and wildcard insertion of
`convertRegexToLike` (pure tail shared with the value model). -/
def likeFromPattern (pattern : Str) : Str :=
  let startsWithCaret := pattern.head? = some '^'
  let endsWithDollar := pattern.getLast? = some '$'
  let p := if startsWithCaret then pattern.drop 1 else pattern
  let p := if endsWithDollar then p.dropLast else p
  let p := escapeLikeMeta p
  let likePattern := if startsWithCaret then p else '%' :: p
  if endsWithDollar then likePattern else likePattern ++ ['%']

/-- The same tail without the escaping step (the dead `$regex` branch of
the tree form). -/
def likeFromPatternNoEscape (pattern : Str) : Str :=
  let startsWithCaret := pattern.head? = some '^'
  let endsWithDollar := pattern.getLast? = some '$'
  let p := if startsWithCaret then pattern.drop 1 else pattern
  let p := if endsWithDollar then p.dropLast else p
  let likePattern := if startsWithCaret then p else '%' :: p
  if endsWithDollar then likePattern else likePattern ++ ['%']

/-- `parameters.push(v)` through the heap: the single mutation the SQL
form performs.  (The reference always designates an array.) -/
def pushParam (σ : Store) (psRef : Ref) (v : HVal) : Store :=
  match σ.read psRef with
  | some (.arr xs) => σ.write psRef (.arr (xs ++ [v]))
  | _ => σ

/-- Push every element of an array operand, in order. -/
def pushParams (σ : Store) (psRef : Ref) (vs : List HVal) : Store :=
  vs.foldl (fun σ2 v => pushParam σ2 psRef v) σ

/-- The `$in`/`$nin` branch over the heap. -/
def hInClause (σ : Store) (field opName kw : Str) (value : HVal)
    (psRef : Ref) : Except Err Str × Store :=
  match value with
  | .ref r =>
    match σ.read r with
    | some (.arr elems) =>
      (.ok (field ++ kw ++ joinSep (str ", ") (elems.map fun _ => str "?") ++ str ")"),
       pushParams σ psRef elems)
    | _ => (.error (.requiresArrayValue opName), σ)
  | _ => (.error (.requiresArrayValue opName), σ)

mutual

/-- `processOperator` over the heap. -/
def hProcessOperator : Nat → Store → Str → Str → HVal → Ref →
    Option (Except Err Str × Store)
  | 0, _, _, _, _, _ => none
  | fuel + 1, σ, field, operator, value, psRef =>
    match mongoOpOf operator with
    | .eqOp => some (.ok (field ++ str " = ?"), pushParam σ psRef value)
    | .neOp => some (.ok (field ++ str " != ?"), pushParam σ psRef value)
    | .gtOp => some (.ok (field ++ str " > ?"), pushParam σ psRef value)
    | .gteOp => some (.ok (field ++ str " >= ?"), pushParam σ psRef value)
    | .ltOp => some (.ok (field ++ str " < ?"), pushParam σ psRef value)
    | .lteOp => some (.ok (field ++ str " <= ?"), pushParam σ psRef value)
    | .inOp => some (hInClause σ field (str "$in") (str " IN (") value psRef)
    | .ninOp => some (hInClause σ field (str "$nin") (str " NOT IN (") value psRef)
    | .regexOp =>
      match hExtractPattern fuel σ value with
      | some (.ok pattern) =>
        some (.ok (field ++ str " LIKE ?"),
              pushParam σ psRef (.prim (.hStr (likeFromPattern pattern))))
      | some (.error e) => some (.error e, σ)
      | none => none
    | .notOp =>
      match hProcessFieldValue fuel σ field value psRef with
      | some (.ok notCondition, σ') =>
        some (.ok (str "NOT (" ++ notCondition ++ str ")"), σ')
      | some (.error e, σ') => some (.error e, σ')
      | none => none
    | .unknown => some (.error (.unsupportedMongo operator), σ)

/-- The operator loop of `processFieldValue` over the heap (the key
snapshot is taken at entry; the object is never modified). -/
def hProcessOps : Nat → Store → Str → List (Str × HVal) → Ref →
    Option (Except Err (List Str) × Store)
  | 0, _, _, _, _ => none
  | fuel + 1, σ, field, entries, psRef =>
    match entries with
    | [] => some (.ok [], σ)
    | (operator, v) :: rest =>
      match hProcessOperator fuel σ field operator v psRef with
      | some (.ok c, σ1) =>
        match hProcessOps fuel σ1 field rest psRef with
        | some (.ok cs, σ2) => some (.ok (c :: cs), σ2)
        | some (.error e, σ2) => some (.error e, σ2)
        | none => none
      | some (.error e, σ1) => some (.error e, σ1)
      | none => none

/-- `processFieldValue` over the heap. -/
def hProcessFieldValue : Nat → Store → Str → HVal → Ref →
    Option (Except Err Str × Store)
  | 0, _, _, _, _ => none
  | fuel + 1, σ, field, value, psRef =>
    match value with
    | .prim (.hStr s) =>
      if isSlashPattern (.vStr s) then
        some (.ok (field ++ str " LIKE ?"),
              pushParam σ psRef (.prim (.hStr (convertSlashPatternToLike s))))
      else
        some (.ok (field ++ str " = ?"), pushParam σ psRef value)
    | .ref r =>
      match σ.read r with
      | some (.obj ((k, v0) :: rest)) =>
        if k.head? = some '$' then
          match hProcessOps fuel σ field ((k, v0) :: rest) psRef with
          | some (.ok conditions, σ1) =>
            some (.ok (if 1 < conditions.length then
                        str "(" ++ joinSep (str " AND ") conditions ++ str ")"
                       else joinSep [] conditions), σ1)
          | some (.error e, σ1) => some (.error e, σ1)
          | none => none
        else
          some (.ok (field ++ str " = ?"), pushParam σ psRef value)
      | _ => some (.ok (field ++ str " = ?"), pushParam σ psRef value)
    | .prim _ => some (.ok (field ++ str " = ?"), pushParam σ psRef value)

end

mutual

/-- The combinator sub-filter loop of `convertMongoFilterToSQL` over the
heap. -/
def hConvertList : Nat → Store → List HVal → Ref →
    Option (Except Err (List Str) × Store)
  | 0, _, _, _ => none
  | fuel + 1, σ, subs, psRef =>
    match subs with
    | [] => some (.ok [], σ)
    | s :: rest =>
      match hConvertMongoFilterToSQL fuel σ s psRef with
      | some (.ok c, σ1) =>
        match hConvertList fuel σ1 rest psRef with
        | some (.ok cs, σ2) => some (.ok (c :: cs), σ2)
        | some (.error e, σ2) => some (.error e, σ2)
        | none => none
      | some (.error e, σ1) => some (.error e, σ1)
      | none => none

/-- The key loop of `convertMongoFilterToSQL` over the heap. -/
def hConvertFields : Nat → Store → List (Str × HVal) → Ref →
    Option (Except Err (List Str) × Store)
  | 0, _, _, _ => none
  | fuel + 1, σ, fields, psRef =>
    match fields with
    | [] => some (.ok [], σ)
    | (key, value) :: rest =>
      if key = str "$and" ∨ key = str "$or" ∨ key = str "$nor" then
        match value with
        | .ref r =>
          match σ.read r with
          | some (.arr subs) =>
            match hConvertList fuel σ subs psRef with
            | some (.ok cs, σ1) =>
              match hConvertFields fuel σ1 rest psRef with
              | some (.ok conds, σ2) =>
                some (.ok ((if 0 < (cs.filter fun c => !c.isEmpty).length then
                    [(if key = str "$nor" then str "NOT (" else str "(") ++
                      joinSep (if key = str "$and" then str " AND " else str " OR ")
                        (cs.filter fun c => !c.isEmpty) ++ str ")"]
                  else []) ++ conds), σ2)
              | some (.error e, σ2) => some (.error e, σ2)
              | none => none
            | some (.error e, σ1) => some (.error e, σ1)
            | none => none
          | _ => some (.error (.requiresArray key), σ)
        | _ => some (.error (.requiresArray key), σ)
      else
        match hProcessFieldValue fuel σ key value psRef with
        | some (.ok condition, σ1) =>
          match hConvertFields fuel σ1 rest psRef with
          | some (.ok conds, σ2) =>
            some (.ok ((if !condition.isEmpty then [condition] else []) ++ conds), σ2)
          | some (.error e, σ2) => some (.error e, σ2)
          | none => none
        | some (.error e, σ1) => some (.error e, σ1)
        | none => none

/-- The index loop for a top-level array document over the heap. -/
def hConvertElems : Nat → Store → Nat → List HVal → Ref →
    Option (Except Err (List Str) × Store)
  | 0, _, _, _, _ => none
  | fuel + 1, σ, i, elems, psRef =>
    match elems with
    | [] => some (.ok [], σ)
    | e :: rest =>
      match hProcessFieldValue fuel σ (natToStr i) e psRef with
      | some (.ok condition, σ1) =>
        match hConvertElems fuel σ1 (i + 1) rest psRef with
        | some (.ok conds, σ2) =>
          some (.ok ((if !condition.isEmpty then [condition] else []) ++ conds), σ2)
        | some (.error e2, σ2) => some (.error e2, σ2)
        | none => none
      | some (.error e2, σ1) => some (.error e2, σ1)
      | none => none

/-- `convertMongoFilterToSQL` over the heap, with the parameters array at
`psRef`. -/
def hConvertMongoFilterToSQL : Nat → Store → HVal → Ref →
    Option (Except Err Str × Store)
  | 0, _, _, _ => none
  | fuel + 1, σ, filter, psRef =>
    match filter with
    | .ref r =>
      match σ.read r with
      | some (.obj (f :: fs)) =>
        match hConvertFields fuel σ (f :: fs) psRef with
        | some (.ok conditions, σ1) =>
          some (.ok (if 1 < conditions.length then joinSep (str " AND ") conditions
                     else conditions.headD []), σ1)
        | some (.error e, σ1) => some (.error e, σ1)
        | none => none
      | some (.arr (e :: es)) =>
        match hConvertElems fuel σ 0 (e :: es) psRef with
        | some (.ok conditions, σ1) =>
          some (.ok (if 1 < conditions.length then joinSep (str " AND ") conditions
                     else conditions.headD []), σ1)
        | some (.error e2, σ1) => some (.error e2, σ1)
        | none => none
      | _ => some (.ok [], σ)
    | .prim _ => some (.ok [], σ)

end

end Heap

namespace Heap

/-- `setEntry` on heap entries (symbol-capable result objects). -/
def setEntryHV : List (SKey × HVal) → SKey → HVal → List (SKey × HVal)
  | [], key, v => [(key, v)]
  | (k, w) :: rest, key, v =>
    if k = key then (key, v) :: rest else (k, w) :: setEntryHV rest key v

/-- `result[key] = v` through the heap: rewrite the result object's cell
(a no-op on a reference that does not hold a result object). -/
def setEntryH (σ : Store) (r : Ref) (key : SKey) (v : HVal) : Store :=
  match σ.read r with
  | some (.sobj es) => σ.write r (.sobj (setEntryHV es key v))
  | _ => σ

/-- `Object.assign(result, converted)` through the heap: copy the
converted object's entries into the result object, one write each. -/
def hAssign (σ : Store) (resRef : Ref) (converted : HVal) : Store :=
  match converted with
  | .ref r =>
    match σ.read r with
    | some (.sobj es) => es.foldl (fun σ2 e => setEntryH σ2 resRef e.1 e.2) σ
    | _ => σ
  | _ => σ

mutual

/-- `parseSQLFilter.convertOperator` over the heap: each hit of
`operatorMap` allocates the fresh `{ [seqOp]: value }` object; the dead
`$regex` branch is mirrored all the same. -/
def hConvertOperator : Nat → Store → Str → HVal → Option (Except Err HVal × Store)
  | 0, _, _, _ => none
  | fuel + 1, σ, operator, value =>
    match parseSQLFilter.operatorMap operator with
    | none => some (.error (.unsupportedSeq operator), σ)
    | some seqOp =>
      match parseSQLFilter.treeOpKindOf operator with
      | .regexK =>
        match hExtractPattern fuel σ value with
        | some (.ok pattern) =>
          let (σ1, r) := σ.alloc (.sobj
            [(.opKey .like, .prim (.hStr (likeFromPatternNoEscape pattern)))])
          some (.ok (.ref r), σ1)
        | some (.error e) => some (.error e, σ)
        | none => none
      | .notK =>
        match hConvertValue fuel σ value with
        | some (.ok inner, σ1) =>
          let (σ2, r) := σ1.alloc (.sobj [(.opKey .not', inner)])
          some (.ok (.ref r), σ2)
        | some (.error e, σ1) => some (.error e, σ1)
        | none => none
      | .plainK =>
        let (σ1, r) := σ.alloc (.sobj [(.opKey seqOp, value)])
        some (.ok (.ref r), σ1)

/-- The `for (const operator in value)` loop of `convertValue` over the
heap, `Object.assign`-ing each converted object into `resRef`. -/
def hConvertOps : Nat → Store → List (Str × HVal) → Ref →
    Option (Except Err Unit × Store)
  | 0, _, _, _ => none
  | fuel + 1, σ, entries, resRef =>
    match entries with
    | [] => some (.ok (), σ)
    | (operator, v) :: rest =>
      match hConvertOperator fuel σ operator v with
      | some (.ok converted, σ1) =>
        hConvertOps fuel (hAssign σ1 resRef converted) rest resRef
      | some (.error e, σ1) => some (.error e, σ1)
      | none => none

/-- `parseSQLFilter.convertValue` over the heap: every branch allocates
its fresh result object; an operator object allocates the empty `result`
first and then merges each converted operator into it. -/
def hConvertValue : Nat → Store → HVal → Option (Except Err HVal × Store)
  | 0, _, _ => none
  | fuel + 1, σ, value =>
    match value with
    | .prim (.hStr s) =>
      if isSlashPattern (.vStr s) then
        let (σ1, r) := σ.alloc (.sobj
          [(.opKey .like, .prim (.hStr (parseSQLFilter.convertSlashPatternToLike s)))])
        some (.ok (.ref r), σ1)
      else
        let (σ1, r) := σ.alloc (.sobj [(.opKey .eq, value)])
        some (.ok (.ref r), σ1)
    | .prim _ =>
      let (σ1, r) := σ.alloc (.sobj [(.opKey .eq, value)])
      some (.ok (.ref r), σ1)
    | .ref vr =>
      match σ.read vr with
      | some (.arr _) =>
        let (σ1, r) := σ.alloc (.sobj [(.opKey .in', value)])
        some (.ok (.ref r), σ1)
      | some (.obj ((k, v0) :: rest)) =>
        if k.head? = some '$' then
          let (σ1, resRef) := σ.alloc (.sobj [])
          match hConvertOps fuel σ1 ((k, v0) :: rest) resRef with
          | some (.ok _, σ2) => some (.ok (.ref resRef), σ2)
          | some (.error e, σ2) => some (.error e, σ2)
          | none => none
        else
          let (σ1, r) := σ.alloc (.sobj [(.opKey .eq, value)])
          some (.ok (.ref r), σ1)
      | _ =>
        let (σ1, r) := σ.alloc (.sobj [(.opKey .eq, value)])
        some (.ok (.ref r), σ1)

end

/-- The enumerable string-keyed fields of a heap object, as `for...in`
sees them (symbol keys of a result object are not enumerated). -/
def enumFields : HObj → Option (List (Str × HVal))
  | .obj fields => some fields
  | .sobj es => some (es.filterMap fun e =>
      match e.1 with
      | .strKey s => some (s, e.2)
      | .opKey _ => none)
  | _ => none

mutual

/-- `value.map(subFilter => this.FilterParse(subFilter, Op))` over the
heap (the fresh array is allocated by the caller). -/
def hParseList : Nat → Store → List HVal → Option (Except Err (List HVal) × Store)
  | 0, _, _ => none
  | fuel + 1, σ, subs =>
    match subs with
    | [] => some (.ok [], σ)
    | s :: rest =>
      match hFilterParse fuel σ s with
      | some (.ok v, σ1) =>
        match hParseList fuel σ1 rest with
        | some (.ok vs, σ2) => some (.ok (v :: vs), σ2)
        | some (.error e, σ2) => some (.error e, σ2)
        | none => none
      | some (.error e, σ1) => some (.error e, σ1)
      | none => none

/-- The `for (const key in filter)` loop of `FilterParse` over the heap,
writing into the fresh result object at `resRef`; the combinator branches
allocate the mapped array (and, for `$nor`, the wrapping `Op.or` object). -/
def hParseFields : Nat → Store → List (Str × HVal) → Ref →
    Option (Except Err Unit × Store)
  | 0, _, _, _ => none
  | fuel + 1, σ, fields, resRef =>
    match fields with
    | [] => some (.ok (), σ)
    | (key, value) :: rest =>
      if key = str "$and" ∨ key = str "$or" ∨ key = str "$nor" then
        match value with
        | .ref vr =>
          match σ.read vr with
          | some (.arr subs) =>
            match hParseList fuel σ subs with
            | some (.ok vs, σ1) =>
              if key = str "$nor" then
                let (σ2, arrRef) := σ1.alloc (.arr vs)
                let (σ3, orRef) := σ2.alloc (.sobj [(.opKey .or', .ref arrRef)])
                hParseFields fuel (setEntryH σ3 resRef (.opKey .not') (.ref orRef))
                  rest resRef
              else
                let (σ2, arrRef) := σ1.alloc (.arr vs)
                hParseFields fuel
                  (setEntryH σ2 resRef
                    (.opKey (if key = str "$and" then .and' else .or')) (.ref arrRef))
                  rest resRef
            | some (.error e, σ1) => some (.error e, σ1)
            | none => none
          | _ => some (.error (.requiresArray key), σ)
        | _ => some (.error (.requiresArray key), σ)
      else
        match hConvertValue fuel σ value with
        | some (.ok sv, σ1) =>
          hParseFields fuel (setEntryH σ1 resRef (.strKey key) sv) rest resRef
        | some (.error e, σ1) => some (.error e, σ1)
        | none => none

/-- `parseSQLFilter.FilterParse` over the heap: falsy values, non-objects
and arrays come back unchanged with the store untouched; an object gets a
fresh empty `result` allocated and filled field by field (dates and
regexps have no enumerable keys, so their fresh result stays empty). -/
def hFilterParse : Nat → Store → HVal → Option (Except Err HVal × Store)
  | 0, _, _ => none
  | fuel + 1, σ, filter =>
    match filter with
    | .prim _ => some (.ok filter, σ)
    | .ref r =>
      match σ.read r with
      | some (.arr _) => some (.ok filter, σ)
      | some o =>
        match enumFields o with
        | some fields =>
          let (σ1, resRef) := σ.alloc (.sobj [])
          match hParseFields fuel σ1 fields resRef with
          | some (.ok _, σ2) => some (.ok (.ref resRef), σ2)
          | some (.error e, σ2) => some (.error e, σ2)
          | none => none
        | none =>
          let (σ1, resRef) := σ.alloc (.sobj [])
          some (.ok (.ref resRef), σ1)
      | none => some (.ok filter, σ)

end

/-- The SQL-form entry point over the heap: `convertMongoFilterToSQL`
itself creates the `parameters` array (`const parameters = []`), so the
run allocates it fresh and translates against it. -/
def hConvertMongoFilterToSQLRun (fuel : Nat) (σ : Store) (filter : HVal) :
    Option (Except Err Str × Store) :=
  let (σ1, psRef) := σ.alloc (.arr [])
  hConvertMongoFilterToSQL fuel σ1 filter psRef

end Heap

namespace Heap

/-! ### Frame lemmas for the primitive store operations -/

theorem Store.read_write_ne (σ : Store) (r r2 : Ref) (o : HObj) (h : r ≠ r2) :
    (σ.write r2 o).read r = σ.read r :=
  List.get?_set_ne o σ (fun he => h he.symm)

theorem Store.length_write (σ : Store) (r : Ref) (o : HObj) :
    (σ.write r o).length = σ.length :=
  List.length_set σ r o

theorem Store.read_append_lt (σ : Store) (ext : List HObj) (r : Ref)
    (h : r < σ.length) : Store.read (σ ++ ext) r = σ.read r :=
  List.get?_append h

theorem pushParam_length (σ : Store) (psRef : Ref) (v : HVal) :
    (pushParam σ psRef v).length = σ.length := by
  rcases hr : σ.read psRef with _ | o
  · simp [pushParam, hr]
  · cases o <;> simp [pushParam, hr, Store.length_write]

theorem pushParam_read_ne (σ : Store) (psRef : Ref) (v : HVal) (r : Ref)
    (h : r ≠ psRef) : (pushParam σ psRef v).read r = σ.read r := by
  rcases hr : σ.read psRef with _ | o
  · simp [pushParam, hr]
  · cases o <;> simp [pushParam, hr, Store.read_write_ne _ _ _ _ h]

theorem pushParams_length (vs : List HVal) (σ : Store) (psRef : Ref) :
    (pushParams σ psRef vs).length = σ.length := by
  induction vs generalizing σ with
  | nil => rfl
  | cons v rest ih =>
    show (pushParams (pushParam σ psRef v) psRef rest).length = σ.length
    rw [ih, pushParam_length]

theorem pushParams_read_ne (vs : List HVal) (σ : Store) (psRef : Ref) (r : Ref)
    (h : r ≠ psRef) : (pushParams σ psRef vs).read r = σ.read r := by
  induction vs generalizing σ with
  | nil => rfl
  | cons v rest ih =>
    show (pushParams (pushParam σ psRef v) psRef rest).read r = σ.read r
    rw [ih, pushParam_read_ne _ _ _ _ h]

theorem hInClause_frame (σ : Store) (field opName kw : Str) (value : HVal)
    (psRef : Ref) (res : Except Err Str) (σ2 : Store)
    (h : hInClause σ field opName kw value psRef = (res, σ2)) :
    σ2.length = σ.length ∧ ∀ r, r ≠ psRef → σ2.read r = σ.read r := by
  rcases value with p | vr
  · simp [hInClause] at h
    exact ⟨h.2 ▸ rfl, fun r _ => h.2 ▸ rfl⟩
  · rcases hr : σ.read vr with _ | o
    · simp [hInClause, hr] at h
      exact ⟨h.2 ▸ rfl, fun r _ => h.2 ▸ rfl⟩
    · cases o <;> simp [hInClause, hr] at h <;>
        first
        | exact ⟨h.2 ▸ rfl, fun r _ => h.2 ▸ rfl⟩
        | exact ⟨h.2 ▸ pushParams_length _ _ _,
            fun r hne => h.2 ▸ pushParams_read_ne _ _ _ _ hne⟩

theorem setEntryH_length (σ : Store) (r2 : Ref) (key : SKey) (v : HVal) :
    (setEntryH σ r2 key v).length = σ.length := by
  rcases hr : σ.read r2 with _ | o
  · simp [setEntryH, hr]
  · cases o <;> simp [setEntryH, hr, Store.length_write]

theorem setEntryH_read_ne (σ : Store) (r2 : Ref) (key : SKey) (v : HVal)
    (r : Ref) (h : r ≠ r2) : (setEntryH σ r2 key v).read r = σ.read r := by
  rcases hr : σ.read r2 with _ | o
  · simp [setEntryH, hr]
  · cases o <;> simp [setEntryH, hr, Store.read_write_ne _ _ _ _ h]

theorem setEntryH_fold_length (es : List (SKey × HVal)) (σ : Store) (r2 : Ref) :
    (es.foldl (fun σ2 e => setEntryH σ2 r2 e.1 e.2) σ).length = σ.length := by
  induction es generalizing σ with
  | nil => rfl
  | cons e rest ih =>
    show (rest.foldl _ (setEntryH σ r2 e.1 e.2)).length = σ.length
    rw [ih, setEntryH_length]

theorem setEntryH_fold_read_ne (es : List (SKey × HVal)) (σ : Store) (r2 : Ref)
    (r : Ref) (h : r ≠ r2) :
    (es.foldl (fun σ2 e => setEntryH σ2 r2 e.1 e.2) σ).read r = σ.read r := by
  induction es generalizing σ with
  | nil => rfl
  | cons e rest ih =>
    show (rest.foldl _ (setEntryH σ r2 e.1 e.2)).read r = σ.read r
    rw [ih, setEntryH_read_ne _ _ _ _ _ h]

theorem hAssign_length (σ : Store) (resRef : Ref) (converted : HVal) :
    (hAssign σ resRef converted).length = σ.length := by
  rcases converted with p | cr
  · rfl
  · rcases hr : σ.read cr with _ | o
    · simp [hAssign, hr]
    · cases o <;> simp [hAssign, hr, setEntryH_fold_length]

theorem hAssign_read_ne (σ : Store) (resRef : Ref) (converted : HVal)
    (r : Ref) (h : r ≠ resRef) :
    (hAssign σ resRef converted).read r = σ.read r := by
  rcases converted with p | cr
  · rfl
  · rcases hr : σ.read cr with _ | o
    · simp [hAssign, hr]
    · cases o <;> simp [hAssign, hr, setEntryH_fold_read_ne _ _ _ _ h]

end Heap

namespace Heap

/-- The SQL-form frame contract: the store keeps its size and every cell
other than the parameters array is unchanged. -/
abbrev FrameEq (σ σ2 : Store) (psRef : Ref) : Prop :=
  σ2.length = σ.length ∧ ∀ r, r ≠ psRef → σ2.read r = σ.read r

theorem frame_refl (σ : Store) (psRef : Ref) : FrameEq σ σ psRef :=
  ⟨rfl, fun _ _ => rfl⟩

theorem frame_trans {σ σ1 σ2 : Store} {psRef : Ref} (h1 : FrameEq σ σ1 psRef)
    (h2 : FrameEq σ1 σ2 psRef) : FrameEq σ σ2 psRef :=
  ⟨h2.1.trans h1.1, fun r hr => (h2.2 r hr).trans (h1.2 r hr)⟩

theorem frame_push (σ : Store) (psRef : Ref) (v : HVal) :
    FrameEq σ (pushParam σ psRef v) psRef :=
  ⟨pushParam_length _ _ _, fun r hr => pushParam_read_ne _ _ _ _ hr⟩

/-- Joint frame property of the heap SQL-form family: whatever a run
returns (success or error), the only cell it may have changed is the
parameters array's. -/
theorem sqlHeapFrame : ∀ fuel : Nat,
    (∀ σ field operator value psRef res σ2,
      hProcessOperator fuel σ field operator value psRef = some (res, σ2) →
      FrameEq σ σ2 psRef) ∧
    (∀ σ field entries psRef res σ2,
      hProcessOps fuel σ field entries psRef = some (res, σ2) →
      FrameEq σ σ2 psRef) ∧
    (∀ σ field value psRef res σ2,
      hProcessFieldValue fuel σ field value psRef = some (res, σ2) →
      FrameEq σ σ2 psRef) ∧
    (∀ σ subs psRef res σ2,
      hConvertList fuel σ subs psRef = some (res, σ2) → FrameEq σ σ2 psRef) ∧
    (∀ σ fields psRef res σ2,
      hConvertFields fuel σ fields psRef = some (res, σ2) → FrameEq σ σ2 psRef) ∧
    (∀ σ i elems psRef res σ2,
      hConvertElems fuel σ i elems psRef = some (res, σ2) → FrameEq σ σ2 psRef) ∧
    (∀ σ filter psRef res σ2,
      hConvertMongoFilterToSQL fuel σ filter psRef = some (res, σ2) →
      FrameEq σ σ2 psRef) := by
  intro fuel
  induction fuel with
  | zero =>
    refine ⟨?_, ?_, ?_, ?_, ?_, ?_, ?_⟩ <;> intros <;>
      simp_all [hProcessOperator, hProcessOps, hProcessFieldValue,
        hConvertList, hConvertFields, hConvertElems, hConvertMongoFilterToSQL]
  | succ n ih =>
    obtain ⟨ihOp, ihOps, ihFv, ihList, ihFields, ihElems, ihTop⟩ := ih
    refine ⟨?_, ?_, ?_, ?_, ?_, ?_, ?_⟩
    · intro σ field operator value psRef res σ2 h
      simp only [hProcessOperator] at h
      revert h
      cases hop : mongoOpOf operator <;> intro h
      case eqOp =>
        simp only [Option.some.injEq, Prod.mk.injEq] at h
        obtain ⟨-, hσ⟩ := h
        subst hσ
        exact frame_push _ _ _
      case neOp =>
        simp only [Option.some.injEq, Prod.mk.injEq] at h
        obtain ⟨-, hσ⟩ := h
        subst hσ
        exact frame_push _ _ _
      case gtOp =>
        simp only [Option.some.injEq, Prod.mk.injEq] at h
        obtain ⟨-, hσ⟩ := h
        subst hσ
        exact frame_push _ _ _
      case gteOp =>
        simp only [Option.some.injEq, Prod.mk.injEq] at h
        obtain ⟨-, hσ⟩ := h
        subst hσ
        exact frame_push _ _ _
      case ltOp =>
        simp only [Option.some.injEq, Prod.mk.injEq] at h
        obtain ⟨-, hσ⟩ := h
        subst hσ
        exact frame_push _ _ _
      case lteOp =>
        simp only [Option.some.injEq, Prod.mk.injEq] at h
        obtain ⟨-, hσ⟩ := h
        subst hσ
        exact frame_push _ _ _
      case inOp =>
        simp only [Option.some.injEq] at h
        exact hInClause_frame _ _ _ _ _ _ _ _ h
      case ninOp =>
        simp only [Option.some.injEq] at h
        exact hInClause_frame _ _ _ _ _ _ _ _ h
      case regexOp =>
        rcases hx : hExtractPattern n σ value with _ | ex
        · simp [hx] at h
        · rcases ex with e | p
          · simp only [hx, Option.some.injEq, Prod.mk.injEq] at h
            obtain ⟨-, hσ⟩ := h
            subst hσ
            exact frame_refl _ _
          · simp only [hx, Option.some.injEq, Prod.mk.injEq] at h
            obtain ⟨-, hσ⟩ := h
            subst hσ
            exact frame_push _ _ _
      case notOp =>
        rcases hfv : hProcessFieldValue n σ field value psRef with _ | ⟨x, σ1⟩
        · simp [hfv] at h
        · rcases x with e | nc
          · simp only [hfv, Option.some.injEq, Prod.mk.injEq] at h
            obtain ⟨-, hσ⟩ := h
            subst hσ
            exact ihFv _ _ _ _ _ _ hfv
          · simp only [hfv, Option.some.injEq, Prod.mk.injEq] at h
            obtain ⟨-, hσ⟩ := h
            subst hσ
            exact ihFv _ _ _ _ _ _ hfv
      case unknown =>
        simp only [Option.some.injEq, Prod.mk.injEq] at h
        obtain ⟨-, hσ⟩ := h
        subst hσ
        exact frame_refl _ _
    · intro σ field entries psRef res σ2 h
      rcases entries with _ | ⟨⟨operator, v⟩, rest⟩
      · simp only [hProcessOps, Option.some.injEq, Prod.mk.injEq] at h
        obtain ⟨-, hσ⟩ := h
        subst hσ
        exact frame_refl _ _
      · simp only [hProcessOps] at h
        rcases hop : hProcessOperator n σ field operator v psRef with _ | ⟨x, σ1⟩
        · simp [hop] at h
        · rcases x with e | c
          · simp only [hop, Option.some.injEq, Prod.mk.injEq] at h
            obtain ⟨-, hσ⟩ := h
            subst hσ
            exact ihOp _ _ _ _ _ _ _ hop
          · simp only [hop] at h
            rcases hops : hProcessOps n σ1 field rest psRef with _ | ⟨y, σ3⟩
            · simp [hops] at h
            · rcases y with e | cs
              · simp only [hops, Option.some.injEq, Prod.mk.injEq] at h
                obtain ⟨-, hσ⟩ := h
                subst hσ
                exact frame_trans (ihOp _ _ _ _ _ _ _ hop) (ihOps _ _ _ _ _ _ hops)
              · simp only [hops, Option.some.injEq, Prod.mk.injEq] at h
                obtain ⟨-, hσ⟩ := h
                subst hσ
                exact frame_trans (ihOp _ _ _ _ _ _ _ hop) (ihOps _ _ _ _ _ _ hops)
    · intro σ field value psRef res σ2 h
      rcases value with p | vr
      · rcases p with _ | _ | b | nv | s
        · simp only [hProcessFieldValue, Option.some.injEq, Prod.mk.injEq] at h
          obtain ⟨-, hσ⟩ := h
          subst hσ
          exact frame_push _ _ _
        · simp only [hProcessFieldValue, Option.some.injEq, Prod.mk.injEq] at h
          obtain ⟨-, hσ⟩ := h
          subst hσ
          exact frame_push _ _ _
        · simp only [hProcessFieldValue, Option.some.injEq, Prod.mk.injEq] at h
          obtain ⟨-, hσ⟩ := h
          subst hσ
          exact frame_push _ _ _
        · simp only [hProcessFieldValue, Option.some.injEq, Prod.mk.injEq] at h
          obtain ⟨-, hσ⟩ := h
          subst hσ
          exact frame_push _ _ _
        · simp only [hProcessFieldValue] at h
          split at h
          all_goals
            simp only [Option.some.injEq, Prod.mk.injEq] at h
            obtain ⟨-, hσ⟩ := h
            subst hσ
            exact frame_push _ _ _
      · simp only [hProcessFieldValue] at h
        rcases hr : σ.read vr with _ | o
        · simp only [hr, Option.some.injEq, Prod.mk.injEq] at h
          obtain ⟨-, hσ⟩ := h
          subst hσ
          exact frame_push _ _ _
        · rcases o with elems | flds | es | t | src
          · simp only [hr, Option.some.injEq, Prod.mk.injEq] at h
            obtain ⟨-, hσ⟩ := h
            subst hσ
            exact frame_push _ _ _
          · rcases flds with _ | ⟨⟨k, v0⟩, rest⟩
            · simp only [hr, Option.some.injEq, Prod.mk.injEq] at h
              obtain ⟨-, hσ⟩ := h
              subst hσ
              exact frame_push _ _ _
            · simp only [hr] at h
              split at h
              · rcases hops : hProcessOps n σ field ((k, v0) :: rest) psRef
                  with _ | ⟨y, σ1⟩
                · simp [hops] at h
                · rcases y with e | conds
                  · simp only [hops, Option.some.injEq, Prod.mk.injEq] at h
                    obtain ⟨-, hσ⟩ := h
                    subst hσ
                    exact ihOps _ _ _ _ _ _ hops
                  · simp only [hops, Option.some.injEq, Prod.mk.injEq] at h
                    obtain ⟨-, hσ⟩ := h
                    subst hσ
                    exact ihOps _ _ _ _ _ _ hops
              · simp only [Option.some.injEq, Prod.mk.injEq] at h
                obtain ⟨-, hσ⟩ := h
                subst hσ
                exact frame_push _ _ _
          · simp only [hr, Option.some.injEq, Prod.mk.injEq] at h
            obtain ⟨-, hσ⟩ := h
            subst hσ
            exact frame_push _ _ _
          · simp only [hr, Option.some.injEq, Prod.mk.injEq] at h
            obtain ⟨-, hσ⟩ := h
            subst hσ
            exact frame_push _ _ _
          · simp only [hr, Option.some.injEq, Prod.mk.injEq] at h
            obtain ⟨-, hσ⟩ := h
            subst hσ
            exact frame_push _ _ _
    · intro σ subs psRef res σ2 h
      rcases subs with _ | ⟨s, rest⟩
      · simp only [hConvertList, Option.some.injEq, Prod.mk.injEq] at h
        obtain ⟨-, hσ⟩ := h
        subst hσ
        exact frame_refl _ _
      · simp only [hConvertList] at h
        rcases hc1 : hConvertMongoFilterToSQL n σ s psRef with _ | ⟨x, σ1⟩
        · simp [hc1] at h
        · rcases x with e | c
          · simp only [hc1, Option.some.injEq, Prod.mk.injEq] at h
            obtain ⟨-, hσ⟩ := h
            subst hσ
            exact ihTop _ _ _ _ _ hc1
          · simp only [hc1] at h
            rcases hrest : hConvertList n σ1 rest psRef with _ | ⟨y, σ3⟩
            · simp [hrest] at h
            · rcases y with e | cs
              · simp only [hrest, Option.some.injEq, Prod.mk.injEq] at h
                obtain ⟨-, hσ⟩ := h
                subst hσ
                exact frame_trans (ihTop _ _ _ _ _ hc1) (ihList _ _ _ _ _ hrest)
              · simp only [hrest, Option.some.injEq, Prod.mk.injEq] at h
                obtain ⟨-, hσ⟩ := h
                subst hσ
                exact frame_trans (ihTop _ _ _ _ _ hc1) (ihList _ _ _ _ _ hrest)
    · intro σ fields psRef res σ2 h
      rcases fields with _ | ⟨⟨key, value⟩, rest⟩
      · simp only [hConvertFields, Option.some.injEq, Prod.mk.injEq] at h
        obtain ⟨-, hσ⟩ := h
        subst hσ
        exact frame_refl _ _
      · simp only [hConvertFields] at h
        by_cases hkey : key = str "$and" ∨ key = str "$or" ∨ key = str "$nor"
        · rw [if_pos hkey] at h
          rcases value with p | vr
          · simp only [Option.some.injEq, Prod.mk.injEq] at h
            obtain ⟨-, hσ⟩ := h
            subst hσ
            exact frame_refl _ _
          · rcases hr : σ.read vr with _ | o
            · simp only [hr, Option.some.injEq, Prod.mk.injEq] at h
              obtain ⟨-, hσ⟩ := h
              subst hσ
              exact frame_refl _ _
            · rcases o with elems | flds | es | t | src
              · simp only [hr] at h
                rcases hl : hConvertList n σ elems psRef with _ | ⟨x, σ1⟩
                · simp [hl] at h
                · rcases x with e | cs1
                  · simp only [hl, Option.some.injEq, Prod.mk.injEq] at h
                    obtain ⟨-, hσ⟩ := h
                    subst hσ
                    exact ihList _ _ _ _ _ hl
                  · simp only [hl] at h
                    rcases hr2 : hConvertFields n σ1 rest psRef with _ | ⟨y, σ3⟩
                    · simp [hr2] at h
                    · rcases y with e | conds
                      · simp only [hr2, Option.some.injEq, Prod.mk.injEq] at h
                        obtain ⟨-, hσ⟩ := h
                        subst hσ
                        exact frame_trans (ihList _ _ _ _ _ hl)
                          (ihFields _ _ _ _ _ hr2)
                      · simp only [hr2, Option.some.injEq, Prod.mk.injEq] at h
                        obtain ⟨-, hσ⟩ := h
                        subst hσ
                        exact frame_trans (ihList _ _ _ _ _ hl)
                          (ihFields _ _ _ _ _ hr2)
              · simp only [hr, Option.some.injEq, Prod.mk.injEq] at h
                obtain ⟨-, hσ⟩ := h
                subst hσ
                exact frame_refl _ _
              · simp only [hr, Option.some.injEq, Prod.mk.injEq] at h
                obtain ⟨-, hσ⟩ := h
                subst hσ
                exact frame_refl _ _
              · simp only [hr, Option.some.injEq, Prod.mk.injEq] at h
                obtain ⟨-, hσ⟩ := h
                subst hσ
                exact frame_refl _ _
              · simp only [hr, Option.some.injEq, Prod.mk.injEq] at h
                obtain ⟨-, hσ⟩ := h
                subst hσ
                exact frame_refl _ _
        · rw [if_neg hkey] at h
          rcases hfv : hProcessFieldValue n σ key value psRef with _ | ⟨x, σ1⟩
          · simp [hfv] at h
          · rcases x with e | c1
            · simp only [hfv, Option.some.injEq, Prod.mk.injEq] at h
              obtain ⟨-, hσ⟩ := h
              subst hσ
              exact ihFv _ _ _ _ _ _ hfv
            · simp only [hfv] at h
              rcases hr2 : hConvertFields n σ1 rest psRef with _ | ⟨y, σ3⟩
              · simp [hr2] at h
              · rcases y with e | conds
                · simp only [hr2, Option.some.injEq, Prod.mk.injEq] at h
                  obtain ⟨-, hσ⟩ := h
                  subst hσ
                  exact frame_trans (ihFv _ _ _ _ _ _ hfv)
                    (ihFields _ _ _ _ _ hr2)
                · simp only [hr2, Option.some.injEq, Prod.mk.injEq] at h
                  obtain ⟨-, hσ⟩ := h
                  subst hσ
                  exact frame_trans (ihFv _ _ _ _ _ _ hfv)
                    (ihFields _ _ _ _ _ hr2)
    · intro σ i elems psRef res σ2 h
      rcases elems with _ | ⟨e0, rest⟩
      · simp only [hConvertElems, Option.some.injEq, Prod.mk.injEq] at h
        obtain ⟨-, hσ⟩ := h
        subst hσ
        exact frame_refl _ _
      · simp only [hConvertElems] at h
        rcases hfv : hProcessFieldValue n σ (natToStr i) e0 psRef with _ | ⟨x, σ1⟩
        · simp [hfv] at h
        · rcases x with e | c1
          · simp only [hfv, Option.some.injEq, Prod.mk.injEq] at h
            obtain ⟨-, hσ⟩ := h
            subst hσ
            exact ihFv _ _ _ _ _ _ hfv
          · simp only [hfv] at h
            rcases hr2 : hConvertElems n σ1 (i + 1) rest psRef with _ | ⟨y, σ3⟩
            · simp [hr2] at h
            · rcases y with e | conds
              · simp only [hr2, Option.some.injEq, Prod.mk.injEq] at h
                obtain ⟨-, hσ⟩ := h
                subst hσ
                exact frame_trans (ihFv _ _ _ _ _ _ hfv)
                  (ihElems _ _ _ _ _ _ hr2)
              · simp only [hr2, Option.some.injEq, Prod.mk.injEq] at h
                obtain ⟨-, hσ⟩ := h
                subst hσ
                exact frame_trans (ihFv _ _ _ _ _ _ hfv)
                  (ihElems _ _ _ _ _ _ hr2)
    · intro σ filter psRef res σ2 h
      rcases filter with p | fr
      · simp only [hConvertMongoFilterToSQL, Option.some.injEq, Prod.mk.injEq] at h
        obtain ⟨-, hσ⟩ := h
        subst hσ
        exact frame_refl _ _
      · simp only [hConvertMongoFilterToSQL] at h
        rcases hr : σ.read fr with _ | o
        · simp only [hr, Option.some.injEq, Prod.mk.injEq] at h
          obtain ⟨-, hσ⟩ := h
          subst hσ
          exact frame_refl _ _
        · rcases o with elems | flds | es | t | src
          · rcases elems with _ | ⟨e0, es2⟩
            · simp only [hr, Option.some.injEq, Prod.mk.injEq] at h
              obtain ⟨-, hσ⟩ := h
              subst hσ
              exact frame_refl _ _
            · simp only [hr] at h
              rcases he : hConvertElems n σ 0 (e0 :: es2) psRef with _ | ⟨y, σ1⟩
              · simp [he] at h
              · rcases y with e | conds
                · simp only [he, Option.some.injEq, Prod.mk.injEq] at h
                  obtain ⟨-, hσ⟩ := h
                  subst hσ
                  exact ihElems _ _ _ _ _ _ he
                · simp only [he, Option.some.injEq, Prod.mk.injEq] at h
                  obtain ⟨-, hσ⟩ := h
                  subst hσ
                  exact ihElems _ _ _ _ _ _ he
          · rcases flds with _ | ⟨f0, fs⟩
            · simp only [hr, Option.some.injEq, Prod.mk.injEq] at h
              obtain ⟨-, hσ⟩ := h
              subst hσ
              exact frame_refl _ _
            · simp only [hr] at h
              rcases hfl : hConvertFields n σ (f0 :: fs) psRef with _ | ⟨y, σ1⟩
              · simp [hfl] at h
              · rcases y with e | conds
                · simp only [hfl, Option.some.injEq, Prod.mk.injEq] at h
                  obtain ⟨-, hσ⟩ := h
                  subst hσ
                  exact ihFields _ _ _ _ _ hfl
                · simp only [hfl, Option.some.injEq, Prod.mk.injEq] at h
                  obtain ⟨-, hσ⟩ := h
                  subst hσ
                  exact ihFields _ _ _ _ _ hfl
          · simp only [hr, Option.some.injEq, Prod.mk.injEq] at h
            obtain ⟨-, hσ⟩ := h
            subst hσ
            exact frame_refl _ _
          · simp only [hr, Option.some.injEq, Prod.mk.injEq] at h
            obtain ⟨-, hσ⟩ := h
            subst hσ
            exact frame_refl _ _
          · simp only [hr, Option.some.injEq, Prod.mk.injEq] at h
            obtain ⟨-, hσ⟩ := h
            subst hσ
            exact frame_refl _ _

end Heap

namespace Heap

/-- The tree-form frame contract: the store only grows, and every
pre-existing cell is unchanged. -/
abbrev GrowPres (σ σ2 : Store) : Prop :=
  σ.length ≤ σ2.length ∧ ∀ r, r < σ.length → σ2.read r = σ.read r

/-- The same contract for the loops that fill a caller-allocated result
object: every pre-existing cell other than the result object's is
unchanged. -/
abbrev GrowPresExc (σ σ2 : Store) (resRef : Ref) : Prop :=
  σ.length ≤ σ2.length ∧ ∀ r, r < σ.length → r ≠ resRef → σ2.read r = σ.read r

theorem grow_refl (σ : Store) : GrowPres σ σ := ⟨le_refl _, fun _ _ => rfl⟩

theorem grow_trans {σ σ1 σ2 : Store} (h1 : GrowPres σ σ1)
    (h2 : GrowPres σ1 σ2) : GrowPres σ σ2 :=
  ⟨le_trans h1.1 h2.1,
   fun r hr => (h2.2 r (lt_of_lt_of_le hr h1.1)).trans (h1.2 r hr)⟩

theorem grow_alloc (σ : Store) (o : HObj) : GrowPres σ (σ ++ [o]) :=
  ⟨by simp, fun r hr => Store.read_append_lt σ [o] r hr⟩

theorem growExc {σ σ2 : Store} (resRef : Ref) (h : GrowPres σ σ2) :
    GrowPresExc σ σ2 resRef :=
  ⟨h.1, fun r hr _ => h.2 r hr⟩

theorem growExc_refl (σ : Store) (resRef : Ref) : GrowPresExc σ σ resRef :=
  ⟨le_refl _, fun _ _ _ => rfl⟩

theorem growExc_trans {σ σ1 σ2 : Store} {resRef : Ref}
    (h1 : GrowPresExc σ σ1 resRef) (h2 : GrowPresExc σ1 σ2 resRef) :
    GrowPresExc σ σ2 resRef :=
  ⟨le_trans h1.1 h2.1,
   fun r hr hne => (h2.2 r (lt_of_lt_of_le hr h1.1) hne).trans (h1.2 r hr hne)⟩

theorem setEntryH_exc (σ : Store) (resRef : Ref) (key : SKey) (v : HVal) :
    GrowPresExc σ (setEntryH σ resRef key v) resRef :=
  ⟨le_of_eq (setEntryH_length σ resRef key v).symm,
   fun r _ hne => setEntryH_read_ne σ resRef key v r hne⟩

theorem hAssign_exc (σ : Store) (resRef : Ref) (converted : HVal) :
    GrowPresExc σ (hAssign σ resRef converted) resRef :=
  ⟨le_of_eq (hAssign_length σ resRef converted).symm,
   fun r _ hne => hAssign_read_ne σ resRef converted r hne⟩

/-- Filling a result object freshly allocated at the end of the store
preserves the whole original store. -/
theorem grow_alloc_exc {σ σ2 : Store} {o : HObj}
    (h : GrowPresExc (σ ++ [o]) σ2 σ.length) : GrowPres σ σ2 := by
  refine ⟨le_trans (by simp) h.1, fun r hr => ?_⟩
  have h1 := h.2 r (by simp; omega) (by omega)
  exact h1.trans (Store.read_append_lt σ [o] r hr)

end Heap

namespace Heap

/-- Joint frame property of the heap `convertOperator`/`convertOps`/
`convertValue` family: the store only grows; the only pre-existing cell
`convertOps` may change is the result object it is filling. -/
theorem convHeapFrame : ∀ fuel : Nat,
    (∀ σ operator value res σ2,
      hConvertOperator fuel σ operator value = some (res, σ2) → GrowPres σ σ2) ∧
    (∀ σ entries resRef res σ2,
      hConvertOps fuel σ entries resRef = some (res, σ2) →
      GrowPresExc σ σ2 resRef) ∧
    (∀ σ value res σ2,
      hConvertValue fuel σ value = some (res, σ2) → GrowPres σ σ2) := by
  intro fuel
  induction fuel with
  | zero =>
    refine ⟨?_, ?_, ?_⟩ <;> intros <;>
      simp_all [hConvertOperator, hConvertOps, hConvertValue]
  | succ n ih =>
    obtain ⟨ihCo, ihOps, ihCv⟩ := ih
    refine ⟨?_, ?_, ?_⟩
    · intro σ operator value res σ2 h
      simp only [hConvertOperator] at h
      rcases hm : parseSQLFilter.operatorMap operator with _ | seqOp
      · simp only [hm, Option.some.injEq, Prod.mk.injEq] at h
        obtain ⟨-, hσ⟩ := h
        subst hσ
        exact grow_refl _
      · simp only [hm] at h
        revert h
        cases hk : parseSQLFilter.treeOpKindOf operator <;> intro h
        case regexK =>
          rcases hx : hExtractPattern n σ value with _ | ex
          · simp [hx] at h
          · rcases ex with e | p
            · simp only [hx, Option.some.injEq, Prod.mk.injEq] at h
              obtain ⟨-, hσ⟩ := h
              subst hσ
              exact grow_refl _
            · simp only [hx, Store.alloc, Option.some.injEq, Prod.mk.injEq] at h
              obtain ⟨-, hσ⟩ := h
              subst hσ
              exact grow_alloc _ _
        case notK =>
          rcases hcv : hConvertValue n σ value with _ | ⟨x, σ1⟩
          · simp [hcv] at h
          · rcases x with e | inner
            · simp only [hcv, Option.some.injEq, Prod.mk.injEq] at h
              obtain ⟨-, hσ⟩ := h
              subst hσ
              exact ihCv _ _ _ _ hcv
            · simp only [hcv, Store.alloc, Option.some.injEq, Prod.mk.injEq] at h
              obtain ⟨-, hσ⟩ := h
              subst hσ
              exact grow_trans (ihCv _ _ _ _ hcv) (grow_alloc _ _)
        case plainK =>
          simp only [Store.alloc, Option.some.injEq, Prod.mk.injEq] at h
          obtain ⟨-, hσ⟩ := h
          subst hσ
          exact grow_alloc _ _
    · intro σ entries resRef res σ2 h
      rcases entries with _ | ⟨⟨operator, v⟩, rest⟩
      · simp only [hConvertOps, Option.some.injEq, Prod.mk.injEq] at h
        obtain ⟨-, hσ⟩ := h
        subst hσ
        exact growExc_refl _ _
      · simp only [hConvertOps] at h
        rcases hop : hConvertOperator n σ operator v with _ | ⟨x, σ1⟩
        · simp [hop] at h
        · rcases x with e | converted
          · simp only [hop, Option.some.injEq, Prod.mk.injEq] at h
            obtain ⟨-, hσ⟩ := h
            subst hσ
            exact growExc _ (ihCo _ _ _ _ _ hop)
          · simp only [hop] at h
            exact growExc_trans (growExc _ (ihCo _ _ _ _ _ hop))
              (growExc_trans (hAssign_exc σ1 resRef converted)
                (ihOps _ _ _ _ _ h))
    · intro σ value res σ2 h
      rcases value with p | vr
      · rcases p with _ | _ | b | nv | s
        · simp only [hConvertValue, Store.alloc, Option.some.injEq,
            Prod.mk.injEq] at h
          obtain ⟨-, hσ⟩ := h
          subst hσ
          exact grow_alloc _ _
        · simp only [hConvertValue, Store.alloc, Option.some.injEq,
            Prod.mk.injEq] at h
          obtain ⟨-, hσ⟩ := h
          subst hσ
          exact grow_alloc _ _
        · simp only [hConvertValue, Store.alloc, Option.some.injEq,
            Prod.mk.injEq] at h
          obtain ⟨-, hσ⟩ := h
          subst hσ
          exact grow_alloc _ _
        · simp only [hConvertValue, Store.alloc, Option.some.injEq,
            Prod.mk.injEq] at h
          obtain ⟨-, hσ⟩ := h
          subst hσ
          exact grow_alloc _ _
        · simp only [hConvertValue, Store.alloc] at h
          split at h
          all_goals
            simp only [Option.some.injEq, Prod.mk.injEq] at h
            obtain ⟨-, hσ⟩ := h
            subst hσ
            exact grow_alloc _ _
      · simp only [hConvertValue] at h
        rcases hr : σ.read vr with _ | o
        · simp only [hr, Store.alloc, Option.some.injEq, Prod.mk.injEq] at h
          obtain ⟨-, hσ⟩ := h
          subst hσ
          exact grow_alloc _ _
        · rcases o with elems | flds | es | t | src
          · simp only [hr, Store.alloc, Option.some.injEq, Prod.mk.injEq] at h
            obtain ⟨-, hσ⟩ := h
            subst hσ
            exact grow_alloc _ _
          · rcases flds with _ | ⟨⟨k, v0⟩, rest⟩
            · simp only [hr, Store.alloc, Option.some.injEq, Prod.mk.injEq] at h
              obtain ⟨-, hσ⟩ := h
              subst hσ
              exact grow_alloc _ _
            · simp only [hr, Store.alloc] at h
              split at h
              · rcases hops : hConvertOps n (σ ++ [HObj.sobj []])
                  ((k, v0) :: rest) σ.length with _ | ⟨y, σ1⟩
                · simp [hops] at h
                · rcases y with e | u
                  · simp only [hops, Option.some.injEq, Prod.mk.injEq] at h
                    obtain ⟨-, hσ⟩ := h
                    subst hσ
                    exact grow_alloc_exc (ihOps _ _ _ _ _ hops)
                  · simp only [hops, Option.some.injEq, Prod.mk.injEq] at h
                    obtain ⟨-, hσ⟩ := h
                    subst hσ
                    exact grow_alloc_exc (ihOps _ _ _ _ _ hops)
              · simp only [Option.some.injEq, Prod.mk.injEq] at h
                obtain ⟨-, hσ⟩ := h
                subst hσ
                exact grow_alloc _ _
          · simp only [hr, Store.alloc, Option.some.injEq, Prod.mk.injEq] at h
            obtain ⟨-, hσ⟩ := h
            subst hσ
            exact grow_alloc _ _
          · simp only [hr, Store.alloc, Option.some.injEq, Prod.mk.injEq] at h
            obtain ⟨-, hσ⟩ := h
            subst hσ
            exact grow_alloc _ _
          · simp only [hr, Store.alloc, Option.some.injEq, Prod.mk.injEq] at h
            obtain ⟨-, hσ⟩ := h
            subst hσ
            exact grow_alloc _ _

end Heap

namespace Heap

/-- Joint frame property of the heap `FilterParse` family: the store only
grows, and pre-existing cells are untouched (except, inside the field
loop, the freshly allocated result object being filled). -/
theorem parseHeapFrame : ∀ fuel : Nat,
    (∀ σ subs res σ2,
      hParseList fuel σ subs = some (res, σ2) → GrowPres σ σ2) ∧
    (∀ σ fields resRef res σ2,
      hParseFields fuel σ fields resRef = some (res, σ2) →
      GrowPresExc σ σ2 resRef) ∧
    (∀ σ filter res σ2,
      hFilterParse fuel σ filter = some (res, σ2) → GrowPres σ σ2) := by
  intro fuel
  induction fuel with
  | zero =>
    refine ⟨?_, ?_, ?_⟩ <;> intros <;>
      simp_all [hParseList, hParseFields, hFilterParse]
  | succ n ih =>
    obtain ⟨ihList, ihFields, ihFp⟩ := ih
    refine ⟨?_, ?_, ?_⟩
    · intro σ subs res σ2 h
      rcases subs with _ | ⟨s, rest⟩
      · simp only [hParseList, Option.some.injEq, Prod.mk.injEq] at h
        obtain ⟨-, hσ⟩ := h
        subst hσ
        exact grow_refl _
      · simp only [hParseList] at h
        rcases hfp : hFilterParse n σ s with _ | ⟨x, σ1⟩
        · simp [hfp] at h
        · rcases x with e | v
          · simp only [hfp, Option.some.injEq, Prod.mk.injEq] at h
            obtain ⟨-, hσ⟩ := h
            subst hσ
            exact ihFp _ _ _ _ hfp
          · simp only [hfp] at h
            rcases hrest : hParseList n σ1 rest with _ | ⟨y, σ3⟩
            · simp [hrest] at h
            · rcases y with e | vs
              · simp only [hrest, Option.some.injEq, Prod.mk.injEq] at h
                obtain ⟨-, hσ⟩ := h
                subst hσ
                exact grow_trans (ihFp _ _ _ _ hfp) (ihList _ _ _ _ hrest)
              · simp only [hrest, Option.some.injEq, Prod.mk.injEq] at h
                obtain ⟨-, hσ⟩ := h
                subst hσ
                exact grow_trans (ihFp _ _ _ _ hfp) (ihList _ _ _ _ hrest)
    · intro σ fields resRef res σ2 h
      rcases fields with _ | ⟨⟨key, value⟩, rest⟩
      · simp only [hParseFields, Option.some.injEq, Prod.mk.injEq] at h
        obtain ⟨-, hσ⟩ := h
        subst hσ
        exact growExc_refl _ _
      · simp only [hParseFields] at h
        by_cases hkey : key = str "$and" ∨ key = str "$or" ∨ key = str "$nor"
        · rw [if_pos hkey] at h
          rcases value with p | vr
          · simp only [Option.some.injEq, Prod.mk.injEq] at h
            obtain ⟨-, hσ⟩ := h
            subst hσ
            exact growExc_refl _ _
          · rcases hr : σ.read vr with _ | o
            · simp only [hr, Option.some.injEq, Prod.mk.injEq] at h
              obtain ⟨-, hσ⟩ := h
              subst hσ
              exact growExc_refl _ _
            · rcases o with elems | flds | es | t | src
              · simp only [hr] at h
                rcases hl : hParseList n σ elems with _ | ⟨x, σ1⟩
                · simp [hl] at h
                · rcases x with e | vs
                  · simp only [hl, Option.some.injEq, Prod.mk.injEq] at h
                    obtain ⟨-, hσ⟩ := h
                    subst hσ
                    exact growExc _ (ihList _ _ _ _ hl)
                  · simp only [hl, Store.alloc] at h
                    split at h
                    · exact growExc_trans (growExc _ (ihList _ _ _ _ hl))
                        (growExc_trans (growExc _ (grow_alloc _ _))
                          (growExc_trans (growExc _ (grow_alloc _ _))
                            (growExc_trans (setEntryH_exc _ _ _ _)
                              (ihFields _ _ _ _ _ h))))
                    · exact growExc_trans (growExc _ (ihList _ _ _ _ hl))
                        (growExc_trans (growExc _ (grow_alloc _ _))
                          (growExc_trans (setEntryH_exc _ _ _ _)
                            (ihFields _ _ _ _ _ h)))
              · simp only [hr, Option.some.injEq, Prod.mk.injEq] at h
                obtain ⟨-, hσ⟩ := h
                subst hσ
                exact growExc_refl _ _
              · simp only [hr, Option.some.injEq, Prod.mk.injEq] at h
                obtain ⟨-, hσ⟩ := h
                subst hσ
                exact growExc_refl _ _
              · simp only [hr, Option.some.injEq, Prod.mk.injEq] at h
                obtain ⟨-, hσ⟩ := h
                subst hσ
                exact growExc_refl _ _
              · simp only [hr, Option.some.injEq, Prod.mk.injEq] at h
                obtain ⟨-, hσ⟩ := h
                subst hσ
                exact growExc_refl _ _
        · rw [if_neg hkey] at h
          rcases hcv : hConvertValue n σ value with _ | ⟨x, σ1⟩
          · simp [hcv] at h
          · rcases x with e | sv
            · simp only [hcv, Option.some.injEq, Prod.mk.injEq] at h
              obtain ⟨-, hσ⟩ := h
              subst hσ
              exact growExc _ ((convHeapFrame n).2.2 _ _ _ _ hcv)
            · simp only [hcv] at h
              exact growExc_trans (growExc _ ((convHeapFrame n).2.2 _ _ _ _ hcv))
                (growExc_trans (setEntryH_exc _ _ _ _) (ihFields _ _ _ _ _ h))
    · intro σ filter res σ2 h
      rcases filter with p | fr
      · simp only [hFilterParse, Option.some.injEq, Prod.mk.injEq] at h
        obtain ⟨-, hσ⟩ := h
        subst hσ
        exact grow_refl _
      · simp only [hFilterParse] at h
        rcases hr : σ.read fr with _ | o
        · simp only [hr, Option.some.injEq, Prod.mk.injEq] at h
          obtain ⟨-, hσ⟩ := h
          subst hσ
          exact grow_refl _
        · rcases o with elems | flds | es | t | src
          · simp only [hr, Option.some.injEq, Prod.mk.injEq] at h
            obtain ⟨-, hσ⟩ := h
            subst hσ
            exact grow_refl _
          · simp only [hr, enumFields, Store.alloc] at h
            rcases hpf : hParseFields n (σ ++ [HObj.sobj []]) flds σ.length
              with _ | ⟨y, σ1⟩
            · simp [hpf] at h
            · rcases y with e | u
              · simp only [hpf, Option.some.injEq, Prod.mk.injEq] at h
                obtain ⟨-, hσ⟩ := h
                subst hσ
                exact grow_alloc_exc (ihFields _ _ _ _ _ hpf)
              · simp only [hpf, Option.some.injEq, Prod.mk.injEq] at h
                obtain ⟨-, hσ⟩ := h
                subst hσ
                exact grow_alloc_exc (ihFields _ _ _ _ _ hpf)
          · simp only [hr, enumFields, Store.alloc] at h
            rcases hpf : hParseFields n (σ ++ [HObj.sobj []])
              (es.filterMap fun e =>
                match e.1 with
                | .strKey s => some (s, e.2)
                | .opKey _ => none) σ.length with _ | ⟨y, σ1⟩
            · simp [hpf] at h
            · rcases y with e | u
              · simp only [hpf, Option.some.injEq, Prod.mk.injEq] at h
                obtain ⟨-, hσ⟩ := h
                subst hσ
                exact grow_alloc_exc (ihFields _ _ _ _ _ hpf)
              · simp only [hpf, Option.some.injEq, Prod.mk.injEq] at h
                obtain ⟨-, hσ⟩ := h
                subst hσ
                exact grow_alloc_exc (ihFields _ _ _ _ _ hpf)
          · simp only [hr, enumFields, Store.alloc, Option.some.injEq,
              Prod.mk.injEq] at h
            obtain ⟨-, hσ⟩ := h
            subst hσ
            exact grow_alloc _ _
          · simp only [hr, enumFields, Store.alloc, Option.some.injEq,
              Prod.mk.injEq] at h
            obtain ⟨-, hσ⟩ := h
            subst hσ
            exact grow_alloc _ _

end Heap

/-- A concrete heap: the document `{age: 25, status: {$in: ["active",
"pending"]}}` at reference 0, its operator object at 1, its operand array
at 2. -/
def c9Store : Heap.Store :=
  [.obj [(str "age", .prim (.hNum 25)), (str "status", .ref 1)],
   .obj [(str "$in", .ref 2)],
   .arr [.prim (.hStr (str "active")), .prim (.hStr (str "pending"))]]

/-- The heap after the SQL-form run on `c9Store`: the input document's
cells 0–2 verbatim, plus the translator's own parameters array. -/
def c9SqlStore : Heap.Store :=
  c9Store ++
    [.arr [.prim (.hNum 25), .prim (.hStr (str "active")),
           .prim (.hStr (str "pending"))]]

/-- The heap after the tree-form run on `c9Store`: the input document's
cells 0–2 verbatim, plus the freshly allocated result nodes. -/
def c9TreeStore : Heap.Store :=
  c9Store ++
    [.sobj [(.strKey (str "age"), .ref 4), (.strKey (str "status"), .ref 5)],
     .sobj [(.opKey .eq, .prim (.hNum 25))],
     .sobj [(.opKey .in', .ref 2)],
     .sobj [(.opKey .in', .ref 2)]]

/-- Claim C9: over the explicit heap model, a terminating translation
call in either form leaves every pre-existing heap cell — in particular
the entire input filter document — reading exactly as before the call:
the SQL form (which allocates its own `parameters` array and writes only
through it) and the tree form (which writes only into freshly allocated
result nodes) both preserve every cell of the original store. -/
theorem translation_preserves_input_document (fuel : Nat) (σ : Heap.Store)
    (filter : Heap.HVal) :
    (∀ res σ2,
      Heap.hConvertMongoFilterToSQLRun fuel σ filter = some (res, σ2) →
      ∀ r, r < σ.length → σ2.read r = σ.read r) ∧
    (∀ res σ2,
      Heap.hFilterParse fuel σ filter = some (res, σ2) →
      ∀ r, r < σ.length → σ2.read r = σ.read r) := by
  constructor
  · intro res σ2 h r hr
    simp only [Heap.hConvertMongoFilterToSQLRun, Heap.Store.alloc] at h
    have hf := (Heap.sqlHeapFrame fuel).2.2.2.2.2.2 _ _ _ _ _ h
    have h1 := hf.2 r (Nat.ne_of_lt hr)
    exact h1.trans (Heap.Store.read_append_lt σ [Heap.HObj.arr []] r hr)
  · intro res σ2 h r hr
    exact ((Heap.parseHeapFrame fuel).2.2 _ _ _ _ h).2 r hr

/-- Witness for claim C9 at the concrete document of `c9Store`, in both
forms: after the run the input document's cell still holds the original
object. -/
theorem translation_preserves_input_document_witness :
    Heap.Store.read c9SqlStore 0 = Heap.Store.read c9Store 0 ∧
    Heap.Store.read c9TreeStore 0 = Heap.Store.read c9Store 0 :=
  ⟨(translation_preserves_input_document 6 c9Store (.ref 0)).1
      (.ok (str "age = ? AND status IN (?, ?)")) c9SqlStore (by rfl) 0 (by decide),
   (translation_preserves_input_document 6 c9Store (.ref 0)).2
      (.ok (.ref 3)) c9TreeStore (by rfl) 0 (by decide)⟩
